import Mathlib

/-!
# Pyramid compositor (`src/cpp/core/pyramid_compositor.{h,cpp}`)

A shallow embedding of `argolid::PyramidCompositor` and proofs about it.

Conventions of the embedding

* C++ `int` / `int64_t` values are mathematical integers (`Int`); `/` on them is the
  truncating division `Int.tdiv`.  Signed overflow is undefined behaviour in C++ and
  is outside the embedding.
* `std::unordered_map` is an association list with `find`, `assign` (`m[k] = v`) and
  `index` (`m[k]` used as a value, which default-inserts a missing key).
* `std::set` (`_chunk_cache`) is a duplicate-free list with `List.insert`.
* A function that can abort the process (`TENSORSTORE_CHECK_OK_AND_ASSIGN`,
  `Result::value()` on an error, an invalid memory access, a loop that never ends)
  returns `Option`; `none` is "no state after the call".
* The array backend, the filesystem and the data-type code table are external: they
  are the fields of `Env`.
* Tasks handed to the thread pool are run one after the other, in the order in which
  they were submitted.
-/

namespace argolid

/-! ## Header: constants, `Seq`, containers -/

/-- The constant `static constexpr int CHUNK_SIZE = 1024;`. -/
def CHUNK_SIZE : Int := 1024

/-- The class `Seq` of the header (the `step_` member is never read). -/
structure Seq where
  start_index_ : Int
  stop_index_ : Int
deriving DecidableEq, Repr

/-- The accessor `Seq::Start`. -/
def Seq.Start (q : Seq) : Int := q.start_index_

/-- The accessor `Seq::Stop`. -/
def Seq.Stop (q : Seq) : Int := q.stop_index_

/-- The lookup `std::unordered_map::find`: the value stored under `k`, if any. -/
def find {K V : Type} [DecidableEq K] : List (K × V) → K → Option V
  | [], _ => none
  | (k', v) :: rest, k => if k' = k then some v else find rest k

/-- The assignment `m[k] = v`: overwrite the entry of `k`, or add one. -/
def assign {K V : Type} [DecidableEq K] : List (K × V) → K → V → List (K × V)
  | [], k, v => [(k, v)]
  | (k', v') :: rest, k, v =>
    if k' = k then (k, v) :: rest else (k', v') :: assign rest k v

/-- The read access `m[k]`: the stored value, or a default value that is inserted
under `k` first.  Returns the value and the map after the access. -/
def index {K V : Type} [DecidableEq K] (m : List (K × V)) (k : K) (dflt : V) :
    V × List (K × V) :=
  match find m k with
  | some v => (v, m)
  | none => (dflt, assign m k dflt)

/-- The operator `/` of `std::filesystem::path` on the textual form of the paths: an
absolute right operand replaces the left one, otherwise the operands are joined with
one separator. -/
def pathAppend (p q : String) : String :=
  if q.data.head? = some '/' then q
  else if p.data = [] ∨ p.data.getLast? = some '/' then p ++ q
  else p ++ "/" ++ q

/-- A `std::vector<T>`: its size and its elements.  Pixel values of all ten element
types are integers here. -/
structure Vec where
  size : Nat
  data : Nat → Int

/-- The value-initialised vector `std::vector<T> v(n)`. -/
def Vec.zeros (n : Nat) : Vec := ⟨n, fun _ => 0⟩

/-- The call `std::memcpy(&dst[dst_off], &src[src_off], n * sizeof(T))`; `none` when
the copy leaves one of the two vectors. -/
def memcpy (dst : Vec) (dst_off : Int) (src : Vec) (src_off : Int) (n : Int) :
    Option Vec :=
  if 0 ≤ dst_off ∧ 0 ≤ src_off ∧ 0 ≤ n ∧ dst_off + n ≤ dst.size ∧ src_off + n ≤ src.size then
    some ⟨dst.size, fun k =>
      if dst_off.toNat ≤ k ∧ k < dst_off.toNat + n.toNat then
        src.data (src_off.toNat + (k - dst_off.toNat))
      else dst.data k⟩
  else none

/-! ## External collaborators -/

/-- A handle `tensorstore::TensorStore<void, -1, dynamic>` on an opened array: where
the array is, the code `GetDataTypeCode(dtype().name())` of its element type, its
`domain().shape()` and its pixels at `(c, y, x)` (with `t = z = 0`). -/
structure TensorStore where
  path : String
  dtype_code : Nat
  shape : List Int
  data : Int → Int → Int → Int

/-- What the compositor does to the outside world, in order. -/
inductive Event where
  | cerr (msg : String)
  | open_source (path : String)
  | read (path : String) (rows cols : Int × Int) (shape : Int × Int)
  | write (path : String) (channels rows cols : Int × Int) (image : Vec) (ok : Bool)
  | remove_all (path : String)

/-- Whether an event is a read of source pixels. -/
def Event.isRead : Event → Bool
  | .read _ _ _ _ => true
  | _ => false

/-- Whether an event is a write to an output array. -/
def Event.isWrite : Event → Bool
  | .write _ _ _ _ _ _ => true
  | _ => false

/-- Whether an event is a write to an output array that the backend accepted. -/
def Event.isGoodWrite : Event → Bool
  | .write _ _ _ _ _ ok => ok
  | _ => false

/-- The environment of a compositor: the filesystem and the array backend.

* `zattrs p` : the dataset keys (`"path"` entries, already parsed by `std::stoi`)
  of the attribute file `p`, or `none` when `std::filesystem::exists(p)` is false;
* `open_read p` : `tensorstore::Open(GetZarrSpecToRead(p), open, read)`;
* `create p` : whether `tensorstore::Open(GetZarrSpecToWrite(p, ..), create |
  delete_existing, write)` succeeds;
* `write p channels rows cols` : `none` when one of the `ClosedInterval` restrictions
  of `WriteImageData` is refused, else `some (write_result.ok())`. -/
structure Env where
  zattrs : String → Option (List Int)
  open_read : String → Option TensorStore
  create : String → Bool
  write : String → Int × Int → Int × Int → Int × Int → Option Bool

/-- The call `tensorstore::Read(source | read_transform, array)` where
`read_transform` restricts the `y` axis to the closed interval `rows` and the `x` axis
to `cols` and leaves the other three axes whole, and `array` is a row-major 2-D array
of the given `shape`.  The backend returns the source pixels over exactly the
requested index ranges: the ranges must lie in the domain of the 5-D source, the axes
`t`, `c`, `z` must have extent one and the extents of the ranges must be those of
`array`; otherwise the call fails. -/
def tsRead (source : TensorStore) (rows cols : Int × Int) (shape : Int × Int) : Option Vec :=
  if source.shape.length = 5 ∧
      source.shape.getD 0 0 = 1 ∧ source.shape.getD 1 0 = 1 ∧ source.shape.getD 2 0 = 1 ∧
      0 ≤ rows.1 ∧ rows.2 < source.shape.getD 3 0 ∧
      0 ≤ cols.1 ∧ cols.2 < source.shape.getD 4 0 ∧
      0 ≤ shape.1 ∧ 0 ≤ shape.2 ∧
      rows.2 - rows.1 + 1 = shape.1 ∧ cols.2 - cols.1 + 1 = shape.2 then
    some ⟨(shape.1 * shape.2).toNat, fun k =>
      source.data 0 (rows.1 + (k : Int) / shape.2) (cols.1 + (k : Int) % shape.2)⟩
  else none

/-! ## The class `PyramidCompositor` -/

/-- The data members of `PyramidCompositor`.  The three members `_image_ts_dtype`,
`_image_dtype` and `_image_dtype_code` all describe the element type of the last
source opened by `set_composition`; they are the one field `_image_dtype_code`. -/
structure PyramidCompositor where
  _input_pyramids_loc : String
  _output_pyramid_name : String
  _ome_metadata_file : String
  _plate_image_shapes : List (Int × List Int)
  _zarr_arrays : List (Int × TensorStore)
  _zarr_readers : List (String × TensorStore)
  _unit_image_shapes : List (Int × (Int × Int))
  _composition_map : List ((Int × Int × Int) × String)
  _chunk_cache : List (Int × Int × Int × Int)
  _pyramid_levels : Int
  _num_channels : Int
  _image_dtype_code : Nat

/-- The constructor. -/
def PyramidCompositor.new (input_pyramids_loc out_dir output_pyramid_name : String) :
    PyramidCompositor where
  _input_pyramids_loc := input_pyramids_loc
  _output_pyramid_name := pathAppend out_dir output_pyramid_name
  _ome_metadata_file := out_dir ++ "/" ++ output_pyramid_name ++ "/METADATA.ome.xml"
  _plate_image_shapes := []
  _zarr_arrays := []
  _zarr_readers := []
  _unit_image_shapes := []
  _composition_map := []
  _chunk_cache := []
  _pyramid_levels := -1
  _num_channels := -1
  _image_dtype_code := 0

/-! ## `_write_zarr_chunk`: the decomposition walk -/

/-- The values captured by the task that `_write_zarr_chunk` hands to the thread pool
for one `(row, col)` pair (lines 192-211), except the two pointers. -/
structure Task where
  row : Int
  col : Int
  channel : Int
  level : Int
  x_start : Int
  x_end : Int
  local_x_start : Int
  tile_x_start : Int
  tile_x_dim : Int
  tile_x_end : Int
  local_y_start : Int
  tile_y_start : Int
  tile_y_dim : Int
  tile_y_end : Int
  y_start : Int
  y_end : Int
  assembled_width : Int
deriving DecidableEq

/-- The inner loop `while (col_start_pos < x_end)` (lines 184-258) for one row of
tiles: the tasks it schedules, in order.  The first argument bounds the number of
iterations; `none` when the loop is still running after that many, or divides by
zero. -/
def col_loop (level channel y_start y_end x_start x_end unit_image_width : Int)
    (row local_y_start tile_y_start tile_y_dim tile_y_end : Int) :
    Nat → Int → Option (List Task)
  | 0, col_start_pos => if col_start_pos < x_end then none else some []
  | fuel + 1, col_start_pos =>
    if col_start_pos < x_end then
      if unit_image_width = 0 then none
      else
        let col := Int.tdiv col_start_pos unit_image_width
        let local_x_start := col_start_pos - x_start
        let tile_x_start := col_start_pos - col * unit_image_width
        let tile_x_dim := min ((col + 1) * unit_image_width - col_start_pos) (x_end - col_start_pos)
        let tile_x_end := tile_x_start + tile_x_dim
        let task : Task :=
          { row := row, col := col, channel := channel, level := level,
            x_start := x_start, x_end := x_end,
            local_x_start := local_x_start, tile_x_start := tile_x_start,
            tile_x_dim := tile_x_dim, tile_x_end := tile_x_end,
            local_y_start := local_y_start, tile_y_start := tile_y_start,
            tile_y_dim := tile_y_dim, tile_y_end := tile_y_end,
            y_start := y_start, y_end := y_end,
            assembled_width := x_end - x_start }
        match col_loop level channel y_start y_end x_start x_end unit_image_width
            row local_y_start tile_y_start tile_y_dim tile_y_end
            fuel (col_start_pos + (tile_x_end - tile_x_start)) with
        | none => none
        | some rest => some (task :: rest)
    else some []

/-- The outer loop `while (row_start_pos < y_end)` (lines 174-260): all the tasks
scheduled, in order.  The inner loop starts at `x_start` and runs for at most
`x_end - x_start` iterations. -/
def row_loop (level channel y_start y_end x_start x_end : Int)
    (unit_image_height unit_image_width : Int) :
    Nat → Int → Option (List Task)
  | 0, row_start_pos => if row_start_pos < y_end then none else some []
  | fuel + 1, row_start_pos =>
    if row_start_pos < y_end then
      if unit_image_height = 0 then none
      else
        let row := Int.tdiv row_start_pos unit_image_height
        let local_y_start := row_start_pos - y_start
        let tile_y_start := row_start_pos - row * unit_image_height
        let tile_y_dim := min ((row + 1) * unit_image_height - row_start_pos) (y_end - row_start_pos)
        let tile_y_end := tile_y_start + tile_y_dim
        let col_start_pos := x_start
        match col_loop level channel y_start y_end x_start x_end unit_image_width
            row local_y_start tile_y_start tile_y_dim tile_y_end
            (x_end - x_start).toNat col_start_pos with
        | none => none
        | some tasks =>
          match row_loop level channel y_start y_end x_start x_end
              unit_image_height unit_image_width
              fuel (row_start_pos + (tile_y_end - tile_y_start)) with
          | none => none
          | some rest => some (tasks ++ rest)
    else some []

/-- The decomposition walk of `_write_zarr_chunk` (lines 170-260) over the output
region `[y_start, y_end) x [x_start, x_end)` with tiles of `unit_image_height` by
`unit_image_width`: the tasks it schedules.  The outer loop starts at `y_start` and
runs for at most `y_end - y_start` iterations. -/
def decompose (level channel y_start y_end x_start x_end : Int)
    (unit_image_height unit_image_width : Int) : Option (List Task) :=
  row_loop level channel y_start y_end x_start x_end unit_image_height unit_image_width
    (y_end - y_start).toNat y_start

/-- The destination rectangle of a task contains the buffer cell `(i, j)`. -/
def Task.covers (t : Task) (i j : Int) : Bool :=
  decide (t.local_y_start ≤ i ∧ i < t.local_y_start + t.tile_y_dim ∧
    t.local_x_start ≤ j ∧ j < t.local_x_start + t.tile_x_dim)

/-- The indices of `assembled_image_vec` that the row copies of a task write (lines
248-254): row copy `i` writes `tile_x_end - tile_x_start` elements from
`(local_y_start + i) * assembled_width + local_x_start` on. -/
def Task.written_indices (t : Task) : List Int :=
  (List.range (t.tile_y_end - t.tile_y_start).toNat).flatMap fun (i : Nat) =>
    (List.range (t.tile_x_end - t.tile_x_start).toNat).map fun (k : Nat) =>
      (t.local_y_start + (i : Int)) * t.assembled_width + t.local_x_start + (k : Int)

/-- The key under which a task looks up its source in the composition map
(line 214). -/
def Task.key (t : Task) : Int × Int × Int := (t.col, t.row, t.channel)

/-- The closed index intervals on the `y` and `x` axes that the read of a task
requests (lines 237-244). -/
def Task.read_request (t : Task) : (Int × Int) × (Int × Int) :=
  let rows : Seq := ⟨t.y_start, t.y_end⟩
  let cols : Seq := ⟨t.x_start, t.x_end⟩
  ((rows.Start, rows.Stop - 1), (cols.Start, cols.Stop - 1))

/-- The shape of the array that the read of a task fills (lines 232-233). -/
def Task.read_shape (t : Task) : Int × Int :=
  (t.tile_y_end - t.tile_y_start, t.tile_x_end - t.tile_x_start)

/-! ## `_write_zarr_chunk`: the per-tile task and the output write -/

/-- The row copies of a task (lines 248-254). -/
def copy_rows (t : Task) (read_buffer : Vec) (assembled_image_vec : Vec) : Option Vec :=
  (List.range (t.tile_y_end - t.tile_y_start).toNat).foldlM
    (fun vec (i : Nat) =>
      memcpy vec ((t.local_y_start + (i : Int)) * t.assembled_width + t.local_x_start)
        read_buffer ((i : Int) * (t.tile_x_end - t.tile_x_start))
        (t.tile_x_end - t.tile_x_start))
    assembled_image_vec

/-- The body of the task of one `(row, col)` pair (lines 212-255): the compositor
after the task, the assembly buffer after it and what it did. -/
def run_task (env : Env) (s : PyramidCompositor) (t : Task) (assembled_image_vec : Vec) :
    Option (PyramidCompositor × Vec × List Event) :=
  let (input_file_name, composition_map) := index s._composition_map t.key ""
  let zarrArrayLoc := pathAppend (pathAppend input_file_name "data.zarr/0/") (toString t.level)
  let opened : Option (TensorStore × List (String × TensorStore) × List Event) :=
    match find s._zarr_readers zarrArrayLoc with
    | some source => some (source, s._zarr_readers, [])
    | none =>
      match env.open_read zarrArrayLoc with
      | none => none
      | some source =>
        some (source, assign s._zarr_readers zarrArrayLoc source, [Event.open_source zarrArrayLoc])
  match opened with
  | none => none
  | some (source, zarr_readers, opens) =>
    match tsRead source t.read_request.1 t.read_request.2 t.read_shape with
    | none => none
    | some read_buffer =>
      match copy_rows t read_buffer assembled_image_vec with
      | none => none
      | some vec =>
        some ({ s with _composition_map := composition_map, _zarr_readers := zarr_readers },
          vec,
          opens ++ [Event.read zarrArrayLoc t.read_request.1 t.read_request.2 t.read_shape])

/-- The tasks of one request, run in the order of submission, up to the barrier
`_th_pool.wait()` (line 263). -/
def run_tasks (env : Env) :
    PyramidCompositor → List Task → Vec → Option (PyramidCompositor × Vec × List Event)
  | s, [], vec => some (s, vec, [])
  | s, t :: rest, vec =>
    match run_task env s t vec with
    | none => none
    | some (s1, vec1, events1) =>
      match run_tasks env s1 rest vec1 with
      | none => none
      | some (s2, vec2, events2) => some (s2, vec2, events1 ++ events2)

/-- The member `WriteImageData` (lines 396-426): the channel axis is restricted to the
closed interval `[channels.Start, channels.Stop]`, the `y` and `x` axes to
`[Start, Stop - 1]`; an error of the write is printed and nothing else. -/
def WriteImageData (env : Env) (source : TensorStore) (image : Vec)
    (rows cols channels : Seq) : Option (List Event) :=
  let c := (channels.Start, channels.Stop)
  let r := (rows.Start, rows.Stop - 1)
  let x := (cols.Start, cols.Stop - 1)
  match env.write source.path c r x with
  | none => none
  | some ok =>
    some (Event.write source.path c r x image ok ::
      (if ok then [] else [Event.cerr "Error writing image: "]))

/-- The member template `_write_zarr_chunk` (lines 151-274), the same for each of the
ten element types. -/
def _write_zarr_chunk (env : Env) (s : PyramidCompositor)
    (level channel y_index x_index : Int) : Option (PyramidCompositor × List Event) :=
  match find s._zarr_arrays level with
  | none => none
  | some zarr_array =>
    let image_shape := zarr_array.shape
    if image_shape.length < 5 then none
    else
      let y_start := y_index * CHUNK_SIZE
      let y_end := min ((y_index + 1) * CHUNK_SIZE) (image_shape.getD 3 0)
      let x_start := x_index * CHUNK_SIZE
      let x_end := min ((x_index + 1) * CHUNK_SIZE) (image_shape.getD 4 0)
      let assembled_width := x_end - x_start
      let assembled_height := y_end - y_start
      if assembled_width * assembled_height < 0 then none
      else
        let assembled_image_vec := Vec.zeros (assembled_width * assembled_height).toNat
        let (unit_shape, unit_image_shapes) := index s._unit_image_shapes level (0, 0)
        let unit_image_height := unit_shape.1
        let unit_image_width := unit_shape.2
        match decompose level channel y_start y_end x_start x_end
            unit_image_height unit_image_width with
        | none => none
        | some tasks =>
          match run_tasks env { s with _unit_image_shapes := unit_image_shapes } tasks
              assembled_image_vec with
          | none => none
          | some (s1, vec, reads) =>
            match WriteImageData env zarr_array vec ⟨y_start, y_end⟩ ⟨x_start, x_end⟩
                ⟨channel, channel⟩ with
            | none => none
            | some writes => some (s1, reads ++ writes)

/-! ## `write_zarr_chunk` -/

/-- The guards of `write_zarr_chunk` (lines 66-96): the message printed when the
request is rejected, `none` when it passes all of them. -/
def precheck (s : PyramidCompositor) (level channel y_index x_index : Int) : Option String :=
  if s._composition_map.isEmpty then
    some "No composition map is set. Unable to generate pyramid"
  else if (find s._unit_image_shapes level).isNone then
    some ("Requested level (" ++ toString level ++ ") does not exist")
  else if channel ≥ s._num_channels then
    some ("Requested channel (" ++ toString channel ++ ") does not exist")
  else
    match find s._plate_image_shapes level with
    | none => some ("No plate image shapes found for level (" ++ toString level ++ ")")
    | some plate_shape =>
      if plate_shape.length < 4 ∨ y_index > Int.tdiv (plate_shape.getD 3 0) CHUNK_SIZE then
        some ("Requested y index (" ++ toString y_index ++ ") does not exist")
      else if plate_shape.length < 5 ∨ x_index > Int.tdiv (plate_shape.getD 4 0) CHUNK_SIZE then
        some ("Requested x index (" ++ toString x_index ++ ") does not exist")
      else none

/-- The ten codes of the `switch` of `write_zarr_chunk` (lines 113-146). -/
def dispatch_codes : List Nat := [1, 2, 4, 8, 16, 32, 64, 128, 256, 512]

/-- The member `write_zarr_chunk` (lines 58-149): the compositor after the call and
what the call did. -/
def write_zarr_chunk (env : Env) (s : PyramidCompositor)
    (level channel y_index x_index : Int) : Option (PyramidCompositor × List Event) :=
  let chunk := (level, channel, y_index, x_index)
  if chunk ∈ s._chunk_cache then some (s, [])
  else
    match precheck s level channel y_index x_index with
    | some msg => some (s, [Event.cerr msg])
    | none =>
      let (input_file_name, composition_map) :=
        index s._composition_map (x_index, y_index, channel) ""
      let s1 := { s with _composition_map := composition_map }
      let zarrArrayLoc :=
        pathAppend (pathAppend (pathAppend s._output_pyramid_name input_file_name)
          "data.zarr/0/") (toString level)
      match env.open_read zarrArrayLoc with
      | none => none
      | some source =>
        let data_type := source.dtype_code
        if data_type ∈ dispatch_codes then
          match _write_zarr_chunk env s1 level channel y_index x_index with
          | none => none
          | some (s2, events) =>
            some ({ s2 with _chunk_cache := s2._chunk_cache.insert chunk },
              Event.open_source zarrArrayLoc :: events)
        else
          some ({ s1 with _chunk_cache := s1._chunk_cache.insert chunk },
            [Event.open_source zarrArrayLoc])

/-! ## `set_composition` and `reset_composition` -/

/-- The task of one dataset of the attribute file (lines 296-322): open the array of
the level, keep the reader, record the element type and the trailing two extents. -/
def discover_level (env : Env) (file_path : String) (s : PyramidCompositor) (res_key : Int) :
    Option PyramidCompositor :=
  let zarr_array_loc := pathAppend (pathAppend file_path "data.zarr/0/") (toString res_key)
  match env.open_read zarr_array_loc with
  | none => none
  | some source =>
    let image_shape := source.shape
    if image_shape.length < 2 then none
    else
      some { s with
        _zarr_readers := assign s._zarr_readers zarr_array_loc source
        _image_dtype_code := source.dtype_code
        _unit_image_shapes := assign s._unit_image_shapes res_key
          (image_shape.getD (image_shape.length - 2) 0,
           image_shape.getD (image_shape.length - 1) 0) }

/-- The first loop of `set_composition` (lines 279-328): the datasets of the first
source that has an attribute file are introspected, then the loop is left. -/
def discover (env : Env) (s : PyramidCompositor) :
    List ((Int × Int × Int) × String) → Option PyramidCompositor
  | [] => some s
  | coord :: rest =>
    let file_path := coord.2
    let attr_file_loc := pathAppend file_path "data.zarr/0/.zattrs"
    match env.zattrs attr_file_loc with
    | some multiscale_metadata =>
      multiscale_metadata.foldlM (discover_level env file_path)
        { s with _pyramid_levels := multiscale_metadata.length }
    | none => discover env s rest

/-- The second loop of `set_composition` (lines 330-336): the running maxima
`(num_rows, num_cols, _num_channels)`, all three started at zero. -/
def grid_maxima (comp_map : List ((Int × Int × Int) × String)) : Int × Int × Int :=
  comp_map.foldl
    (fun acc coord => (max acc.1 coord.1.2.1, max acc.2.1 coord.1.1, max acc.2.2 coord.1.2.2))
    (0, 0, 0)

/-- The task that creates the output array of one level (lines 364-379). -/
def create_level (env : Env) (s : PyramidCompositor) (level : Int) : Option PyramidCompositor :=
  let path := s._output_pyramid_name ++ "/data.zarr/0/" ++ toString level
  let (shape, plate_image_shapes) := index s._plate_image_shapes level []
  if env.create path then
    some { s with
      _plate_image_shapes := plate_image_shapes
      _zarr_arrays := assign s._zarr_arrays level ⟨path, s._image_dtype_code, shape, fun _ _ _ => 0⟩ }
  else none

/-- The member `create_auxiliary_files` (lines 31-56).  The three writers are
external; what is left on the compositor is the access `_plate_image_shapes[0]` of
`create_xml`. -/
def create_auxiliary_files (s : PyramidCompositor) : PyramidCompositor :=
  { s with _plate_image_shapes := (index s._plate_image_shapes 0 []).2 }

/-- The member `set_composition` (lines 276-385). -/
def set_composition (env : Env) (s : PyramidCompositor)
    (comp_map : List ((Int × Int × Int) × String)) : Option PyramidCompositor :=
  match discover env { s with _composition_map := comp_map } comp_map with
  | none => none
  | some s1 =>
    let num_rows := (grid_maxima comp_map).1 + 1
    let num_cols := (grid_maxima comp_map).2.1 + 1
    let num_channels := (grid_maxima comp_map).2.2 + 1
    let s2 := { s1 with
      _num_channels := num_channels
      _plate_image_shapes := []
      _zarr_arrays := []
      _chunk_cache := [] }
    let s3 := { s2 with
      _plate_image_shapes := s2._unit_image_shapes.foldl
        (fun (plate : List (Int × List Int)) (entry : Int × (Int × Int)) =>
          assign plate entry.1
            [1, s2._num_channels, 1, num_rows * entry.2.1, num_cols * entry.2.2])
        [] }
    match (s3._unit_image_shapes.map Prod.fst).foldlM (create_level env) s3 with
    | none => none
    | some s4 => some (create_auxiliary_files s4)

/-- The member `reset_composition` (lines 387-394). -/
def reset_composition (s : PyramidCompositor) : PyramidCompositor × List Event :=
  ({ s with
      _composition_map := []
      _plate_image_shapes := []
      _chunk_cache := []
      _zarr_arrays := [] },
    [Event.remove_all s._output_pyramid_name])

/-- A sequence of `write_zarr_chunk` calls, one after the other: the compositor after
the last one and what each call did. -/
def write_zarr_chunks (env : Env) :
    PyramidCompositor → List (Int × Int × Int × Int) →
      Option (PyramidCompositor × List (List Event))
  | s, [] => some (s, [])
  | s, (level, channel, y_index, x_index) :: rest =>
    match write_zarr_chunk env s level channel y_index x_index with
    | none => none
    | some (s1, events) =>
      match write_zarr_chunks env s1 rest with
      | none => none
      | some (s2, more) => some (s2, events :: more)

/-! ## Guarantees of the two loops -/

/-- What the inner loop guarantees for each of its tasks. -/
structure ColOK (level channel y_start y_end x_start x_end W : Int)
    (row ly ty tyd tye : Int) (pos : Int) (t : Task) : Prop where
  row_eq : t.row = row
  channel_eq : t.channel = channel
  level_eq : t.level = level
  ly_eq : t.local_y_start = ly
  ty_eq : t.tile_y_start = ty
  tyd_eq : t.tile_y_dim = tyd
  tye_eq : t.tile_y_end = tye
  x_start_eq : t.x_start = x_start
  x_end_eq : t.x_end = x_end
  y_start_eq : t.y_start = y_start
  y_end_eq : t.y_end = y_end
  width_eq : t.assembled_width = x_end - x_start
  col_eq : t.col = Int.tdiv (x_start + t.local_x_start) W
  col_nonneg : 0 ≤ t.col
  tx_nonneg : 0 ≤ t.tile_x_start
  tx_lt : t.tile_x_start < t.tile_x_end
  tx_le : t.tile_x_end ≤ W
  tx_end : t.tile_x_end = t.tile_x_start + t.tile_x_dim
  tx_pos : x_start + t.local_x_start = t.col * W + t.tile_x_start
  lx_ge : pos ≤ x_start + t.local_x_start
  lx_le : x_start + t.local_x_start + t.tile_x_dim ≤ x_end

/-- What the walk guarantees for each of its tasks. -/
structure TaskOK (level channel y_start y_end x_start x_end H W : Int) (t : Task) : Prop where
  channel_eq : t.channel = channel
  level_eq : t.level = level
  x_start_eq : t.x_start = x_start
  x_end_eq : t.x_end = x_end
  y_start_eq : t.y_start = y_start
  y_end_eq : t.y_end = y_end
  width_eq : t.assembled_width = x_end - x_start
  row_eq : t.row = Int.tdiv (y_start + t.local_y_start) H
  row_nonneg : 0 ≤ t.row
  ty_nonneg : 0 ≤ t.tile_y_start
  ty_lt : t.tile_y_start < t.tile_y_end
  ty_le : t.tile_y_end ≤ H
  ty_end : t.tile_y_end = t.tile_y_start + t.tile_y_dim
  ty_pos : y_start + t.local_y_start = t.row * H + t.tile_y_start
  ly_ge : y_start ≤ y_start + t.local_y_start
  ly_le : y_start + t.local_y_start + t.tile_y_dim ≤ y_end
  col_eq : t.col = Int.tdiv (x_start + t.local_x_start) W
  col_nonneg : 0 ≤ t.col
  tx_nonneg : 0 ≤ t.tile_x_start
  tx_lt : t.tile_x_start < t.tile_x_end
  tx_le : t.tile_x_end ≤ W
  tx_end : t.tile_x_end = t.tile_x_start + t.tile_x_dim
  tx_pos : x_start + t.local_x_start = t.col * W + t.tile_x_start
  lx_ge : x_start ≤ x_start + t.local_x_start
  lx_le : x_start + t.local_x_start + t.tile_x_dim ≤ x_end


/-! ## Reachable compositors -/

/-- The compositors that a program can hold: the constructor, then any calls of the
three public operations that return, each in any environment. -/
inductive Reachable : PyramidCompositor → Prop where
  | new (input_pyramids_loc out_dir output_pyramid_name : String) :
      Reachable (PyramidCompositor.new input_pyramids_loc out_dir output_pyramid_name)
  | set_composition (env : Env) (s s' : PyramidCompositor)
      (m : List ((Int × Int × Int) × String)) :
      Reachable s → set_composition env s m = some s' → Reachable s'
  | write_zarr_chunk (env : Env) (s s' : PyramidCompositor)
      (level channel y_index x_index : Int) (events : List Event) :
      Reachable s → write_zarr_chunk env s level channel y_index x_index = some (s', events) →
      Reachable s'
  | reset_composition (s : PyramidCompositor) :
      Reachable s → Reachable (reset_composition s).1

/-! ## Scenarios -/

/-- An environment with one level `0`: every source of `sources` is an `H` by `W`
single-channel array whose pixel at `(y, x)` is `y * W + x`, the output array of the
level has the shape `plate`, every array creation succeeds and every output write
reports `write_ok`. -/
def grid_env (sources : List String) (H W : Int) (code : Nat) (plate : List Int)
    (write_ok : Bool) : Env where
  zattrs := fun p =>
    if p ∈ sources.map (fun f => pathAppend f "data.zarr/0/.zattrs") then some [0] else none
  open_read := fun p =>
    if p ∈ sources.map (fun f => pathAppend (pathAppend f "data.zarr/0/") "0") then
      some ⟨p, code, [1, 1, 1, H, W], fun _ y x => y * W + x⟩
    else if p = "/out/plate/data.zarr/0/0" then some ⟨p, code, plate, fun _ _ _ => 0⟩
    else none
  create := fun _ => true
  write := fun _ _ _ _ => some write_ok

/-- A compositor just constructed. -/
def fresh : PyramidCompositor := PyramidCompositor.new "/in" "/out" "plate"

/-- Scenario E1: a 1x1 grid, one channel, `H = W = 512`. -/
def mapE1 : List ((Int × Int × Int) × String) := [((0, 0, 0), "/in/a")]

/-- The environment of scenario E1, sources of element type `uint16`. -/
def envE1 : Env := grid_env (mapE1.map Prod.snd) 512 512 2 [1, 1, 1, 512, 512] true

/-- Scenario E2: a 2x2 grid, one channel, `H = W = 600`. -/
def mapE2 : List ((Int × Int × Int) × String) :=
  [((0, 0, 0), "/in/p00"), ((1, 0, 0), "/in/p10"), ((0, 1, 0), "/in/p01"), ((1, 1, 0), "/in/p11")]

/-- The environment of scenario E2. -/
def envE2 : Env := grid_env (mapE2.map Prod.snd) 600 600 2 [1, 1, 1, 1200, 1200] true

/-- The compositor of scenario E2 after `set_composition`. -/
def stateE2 : Option PyramidCompositor := set_composition envE2 fresh mapE2

/-- Scenario E3: a 1x1 grid, `H = W = 1500`. -/
def mapE3 : List ((Int × Int × Int) × String) := [((0, 0, 0), "/in/a")]

/-- The environment of scenario E3. -/
def envE3 : Env := grid_env (mapE3.map Prod.snd) 1500 1500 2 [1, 1, 1, 1500, 1500] true

/-- The compositor of scenario E3 after `set_composition`. -/
def stateE3 : Option PyramidCompositor := set_composition envE3 fresh mapE3

/-- Scenario E4: two columns, one row, three channels, `H = W = 1024`. -/
def mapE4 : List ((Int × Int × Int) × String) :=
  [((0, 0, 0), "/in/a0"), ((1, 0, 0), "/in/b0"), ((0, 0, 1), "/in/a1"), ((1, 0, 1), "/in/b1"),
   ((0, 0, 2), "/in/a2"), ((1, 0, 2), "/in/b2")]

/-- The environment of scenario E4. -/
def envE4 : Env := grid_env (mapE4.map Prod.snd) 1024 1024 2 [1, 3, 1, 1024, 2048] true

/-- The compositor of scenario E4 after `set_composition`. -/
def stateE4 : Option PyramidCompositor := set_composition envE4 fresh mapE4

/-- Scenario E5: a 1x1 grid, `H = W = 1024`. -/
def mapE5 : List ((Int × Int × Int) × String) := [((0, 0, 0), "/in/a")]

/-- The environment of scenario E5. -/
def envE5 : Env := grid_env (mapE5.map Prod.snd) 1024 1024 2 [1, 1, 1, 1024, 1024] true

/-- The compositor of scenario E5 after `set_composition`. -/
def stateE5 : Option PyramidCompositor := set_composition envE5 fresh mapE5

/-- The environment of scenario E1 with sources whose element type has the code `0`,
which is none of the ten codes of the dispatch. -/
def envNoCase : Env := grid_env (mapE1.map Prod.snd) 512 512 0 [1, 1, 1, 512, 512] true

/-- The compositor of scenario E1 in `envNoCase` after `set_composition`. -/
def stateNoCase : Option PyramidCompositor := set_composition envNoCase fresh mapE1

/-- The environment of scenario E1 with an array backend whose writes report an
error. -/
def envWriteError : Env := grid_env (mapE1.map Prod.snd) 512 512 2 [1, 1, 1, 512, 512] false

/-- The compositor of scenario E1 in `envWriteError` after `set_composition`. -/
def stateWriteError : Option PyramidCompositor := set_composition envWriteError fresh mapE1

/-! # Theorems -/

/-! ## Containers -/

section maps
variable {K V : Type} [DecidableEq K]

theorem find_assign_self (m : List (K × V)) (k : K) (v : V) : find (assign m k v) k = some v := by
  induction m with
  | nil => simp [assign, find]
  | cons e rest ih =>
    obtain ⟨k', v'⟩ := e
    by_cases h : k' = k
    · simp [assign, find, h]
    · simp [assign, find, h, ih]

theorem find_assign_of_ne (m : List (K × V)) (k k' : K) (v : V) (h : k ≠ k') :
    find (assign m k v) k' = find m k' := by
  induction m with
  | nil => simp [assign, find, h]
  | cons e rest ih =>
    obtain ⟨k0, v0⟩ := e
    by_cases h0 : k0 = k
    · subst h0
      simp [assign, find, h]
    · by_cases h1 : k0 = k'
      · subst h1
        simp [assign, find, h0]
      · simp [assign, find, h0, h1, ih]

theorem find_index_of_find (m : List (K × V)) (k k' : K) (d v : V) (h : find m k' = some v) :
    find (index m k d).2 k' = some v := by
  unfold index
  split
  · exact h
  · rename_i hk
    have hne : k ≠ k' := by
      rintro rfl
      rw [hk] at h
      exact absurd h (by simp)
    rw [find_assign_of_ne m k k' d hne, h]

theorem find_eq_none_of_not_mem (m : List (K × V)) (k : K) (h : k ∉ m.map Prod.fst) :
    find m k = none := by
  induction m with
  | nil => rfl
  | cons e rest ih =>
    obtain ⟨k0, v0⟩ := e
    simp only [List.map_cons, List.mem_cons, not_or] at h
    simp only [find, if_neg (Ne.symm h.1)]
    exact ih h.2

theorem keys_assign (m : List (K × V)) (k : K) (v : V) :
    (assign m k v).map Prod.fst =
      if k ∈ m.map Prod.fst then m.map Prod.fst else m.map Prod.fst ++ [k] := by
  induction m with
  | nil => simp [assign]
  | cons e rest ih =>
    obtain ⟨k0, v0⟩ := e
    by_cases h0 : k0 = k
    · subst h0
      simp [assign]
    · have h0' : ¬ k = k0 := fun h => h0 h.symm
      simp only [assign, if_neg h0, List.map_cons, ih, List.mem_cons, h0', false_or]
      split_ifs <;> simp

theorem nodup_keys_assign (m : List (K × V)) (k : K) (v : V) (h : (m.map Prod.fst).Nodup) :
    ((assign m k v).map Prod.fst).Nodup := by
  rw [keys_assign]
  split_ifs with hk
  · exact h
  · rw [List.nodup_append]
    refine ⟨h, List.nodup_singleton k, ?_⟩
    intro a ha hb
    rw [List.mem_singleton] at hb
    subst hb
    exact hk ha

end maps

theorem foldlM_some_induction {α β : Type} (f : β → α → Option β) (P : β → Prop)
    (hstep : ∀ b a b', f b a = some b' → P b → P b') :
    ∀ (l : List α) (b b' : β), l.foldlM f b = some b' → P b → P b' := by
  intro l
  induction l with
  | nil =>
    intro b b' h hb
    simp only [List.foldlM, pure, Option.some.injEq] at h
    rw [← h]; exact hb
  | cons a rest ih =>
    intro b b' h hb
    rw [List.foldlM_cons] at h
    cases hfa : f b a with
    | none => rw [hfa] at h; exact absurd h (by simp [bind])
    | some b1 =>
      rw [hfa] at h
      exact ih b1 b' h (hstep b a b1 hfa hb)

/-- The plate shapes built by the loop of lines 346-355. -/
theorem find_plate_fold (C R K : Int) :
    ∀ (units : List (Int × (Int × Int))) (acc : List (Int × List Int)) (L H W : Int),
      (units.map Prod.fst).Nodup → find units L = some (H, W) →
      find (units.foldl
        (fun (plate : List (Int × List Int)) (entry : Int × (Int × Int)) =>
          assign plate entry.1 [1, C, 1, R * entry.2.1, K * entry.2.2]) acc) L
        = some [1, C, 1, R * H, K * W] := by
  intro units
  induction units with
  | nil => intro acc L H W _ h; exact absurd h (by simp [find])
  | cons e rest ih =>
    intro acc L H W hnd h
    obtain ⟨k0, h0, w0⟩ := e
    simp only [List.map_cons, List.nodup_cons] at hnd
    simp only [List.foldl_cons]
    by_cases hk : k0 = L
    · subst hk
      simp only [find, if_true, Option.some.injEq, Prod.mk.injEq] at h
      obtain ⟨rfl, rfl⟩ := h
      have hkeep : ∀ (l : List (Int × (Int × Int))) (a : List (Int × List Int)),
          k0 ∉ l.map Prod.fst →
          find (l.foldl
            (fun (plate : List (Int × List Int)) (entry : Int × (Int × Int)) =>
              assign plate entry.1 [1, C, 1, R * entry.2.1, K * entry.2.2]) a) k0
            = find a k0 := by
        intro l
        induction l with
        | nil => intro a _; rfl
        | cons e' l' ih' =>
          intro a hnot
          simp only [List.map_cons, List.mem_cons, not_or] at hnot
          simp only [List.foldl_cons]
          rw [ih' _ hnot.2, find_assign_of_ne _ _ _ _ (Ne.symm hnot.1)]
      rw [hkeep rest _ hnd.1, find_assign_self]
    · simp only [find, if_neg hk] at h
      exact ih _ L H W hnd.2 h

theorem foldl_max_spec {α : Type} (g : α → Int) :
    ∀ (l : List α) (a : Int),
      a ≤ l.foldl (fun acc e => max acc (g e)) a ∧
      (∀ e ∈ l, g e ≤ l.foldl (fun acc e => max acc (g e)) a) ∧
      (l.foldl (fun acc e => max acc (g e)) a = a ∨
        ∃ e ∈ l, g e = l.foldl (fun acc e => max acc (g e)) a) := by
  intro l
  induction l with
  | nil => intro a; simp
  | cons x rest ih =>
    intro a
    simp only [List.foldl_cons]
    obtain ⟨h1, h2, h3⟩ := ih (max a (g x))
    refine ⟨le_trans (le_max_left _ _) h1, ?_, ?_⟩
    · intro e he
      rcases List.mem_cons.1 he with rfl | he
      · exact le_trans (le_max_right _ _) h1
      · exact h2 e he
    · rcases h3 with h3 | ⟨e, he, h3⟩
      · rcases max_choice a (g x) with hm | hm
        · left; rw [h3, hm]
        · right; exact ⟨x, List.mem_cons_self _ _, by rw [h3, hm]⟩
      · right; exact ⟨e, List.mem_cons_of_mem _ he, h3⟩

theorem grid_maxima_proj (m : List ((Int × Int × Int) × String)) :
    ∀ acc : Int × Int × Int,
      m.foldl (fun acc coord =>
          (max acc.1 coord.1.2.1, max acc.2.1 coord.1.1, max acc.2.2 coord.1.2.2)) acc
        = (m.foldl (fun a e => max a e.1.2.1) acc.1,
           m.foldl (fun a e => max a e.1.1) acc.2.1,
           m.foldl (fun a e => max a e.1.2.2) acc.2.2) := by
  induction m with
  | nil => intro acc; rfl
  | cons e rest ih => intro acc; simp only [List.foldl_cons]; rw [ih]

theorem max_plus_one {α : Type} (g : α → Int) (l : List α) (n : Int)
    (hnonneg : ∀ e ∈ l, 0 ≤ g e) (hmax : (∃ e ∈ l, g e = n - 1) ∧ ∀ e ∈ l, g e ≤ n - 1) :
    l.foldl (fun acc e => max acc (g e)) 0 + 1 = n := by
  obtain ⟨h1, h2, h3⟩ := foldl_max_spec g l 0
  obtain ⟨⟨e0, he0, hg0⟩, hle⟩ := hmax
  have ha := h2 e0 he0
  have hb : l.foldl (fun acc e => max acc (g e)) 0 ≤ n - 1 := by
    rcases h3 with h3 | ⟨e, he, h3⟩
    · rw [h3, ← hg0]; exact hnonneg e0 he0
    · rw [← h3]; exact hle e he
  omega

theorem discover_level_keeps (env : Env) (file_path : String) (m : List ((Int × Int × Int) × String))
    (s : PyramidCompositor) (res_key : Int) (s' : PyramidCompositor)
    (h : discover_level env file_path s res_key = some s')
    (hs : (s._unit_image_shapes.map Prod.fst).Nodup ∧ s._composition_map = m) :
    (s'._unit_image_shapes.map Prod.fst).Nodup ∧ s'._composition_map = m := by
  unfold discover_level at h
  simp only at h
  split at h
  · exact absurd h (by simp)
  · split_ifs at h
    simp only [Option.some.injEq] at h
    rw [← h]
    exact ⟨nodup_keys_assign _ _ _ hs.1, hs.2⟩

theorem discover_keeps (env : Env) (m : List ((Int × Int × Int) × String)) :
    ∀ (l : List ((Int × Int × Int) × String)) (s s' : PyramidCompositor),
      discover env s l = some s' →
      (s._unit_image_shapes.map Prod.fst).Nodup ∧ s._composition_map = m →
      (s'._unit_image_shapes.map Prod.fst).Nodup ∧ s'._composition_map = m := by
  intro l
  induction l with
  | nil =>
    intro s s' h hs
    simp only [discover, Option.some.injEq] at h
    rw [← h]; exact hs
  | cons coord rest ih =>
    intro s s' h hs
    simp only [discover] at h
    split at h
    · exact foldlM_some_induction (discover_level env coord.2)
        (fun s => (s._unit_image_shapes.map Prod.fst).Nodup ∧ s._composition_map = m)
        (fun b a b' hb hP => discover_level_keeps env coord.2 m b a b' hb hP) _ _ _ h hs
    · exact ih s s' h hs

theorem create_level_keeps (env : Env) (m : List ((Int × Int × Int) × String))
    (U : List (Int × (Int × Int))) (L : Int) (shape : List Int)
    (s : PyramidCompositor) (level : Int) (s' : PyramidCompositor)
    (h : create_level env s level = some s')
    (hs : s._unit_image_shapes = U ∧ s._composition_map = m ∧
      find s._plate_image_shapes L = some shape) :
    s'._unit_image_shapes = U ∧ s'._composition_map = m ∧
      find s'._plate_image_shapes L = some shape := by
  unfold create_level at h
  simp only at h
  split_ifs at h
  simp only [Option.some.injEq] at h
  rw [← h]
  exact ⟨hs.1, hs.2.1, find_index_of_find s._plate_image_shapes level L [] shape hs.2.2⟩

/-- Claim C2 (plate-shape law).  Let `m` be a composition map with non-negative keys,
and let `C - 1`, `R - 1`, `K - 1` be the greatest channel, row and column of its keys.
When `set_composition(m)` returns (on a compositor whose map of unit shapes has
distinct keys, as every `std::unordered_map` has), the composition map is `m` and for
every level `L` with a recorded unit shape `(H, W)` the recorded plate shape of `L` is
`(1, C, 1, R * H, K * W)`. -/
theorem plate_shape_law (env : Env) (s s' : PyramidCompositor)
    (m : List ((Int × Int × Int) × String)) (C R K : Int)
    (hunique : (s._unit_image_shapes.map Prod.fst).Nodup)
    (hkeys : ∀ e ∈ m, 0 ≤ e.1.1 ∧ 0 ≤ e.1.2.1 ∧ 0 ≤ e.1.2.2)
    (hC : (∃ e ∈ m, e.1.2.2 = C - 1) ∧ ∀ e ∈ m, e.1.2.2 ≤ C - 1)
    (hR : (∃ e ∈ m, e.1.2.1 = R - 1) ∧ ∀ e ∈ m, e.1.2.1 ≤ R - 1)
    (hK : (∃ e ∈ m, e.1.1 = K - 1) ∧ ∀ e ∈ m, e.1.1 ≤ K - 1)
    (hset : set_composition env s m = some s') :
    s'._composition_map = m ∧
      ∀ L H W : Int, find s'._unit_image_shapes L = some (H, W) →
        find s'._plate_image_shapes L = some [1, C, 1, R * H, K * W] := by
  unfold set_composition at hset
  split at hset
  · exact absurd hset (by simp)
  · rename_i s1 hdisc
    simp only at hset
    split at hset
    · exact absurd hset (by simp)
    · rename_i s4 hcreate
      simp only [Option.some.injEq] at hset
      obtain ⟨hnd, hmap⟩ := discover_keeps env m m _ s1 hdisc ⟨hunique, rfl⟩
      have hCm : (grid_maxima m).2.2 + 1 = C := by
        unfold grid_maxima
        rw [grid_maxima_proj]
        exact max_plus_one (fun e : (Int × Int × Int) × String => e.1.2.2) m C
          (fun e he => (hkeys e he).2.2) hC
      have hRm : (grid_maxima m).1 + 1 = R := by
        unfold grid_maxima
        rw [grid_maxima_proj]
        exact max_plus_one (fun e : (Int × Int × Int) × String => e.1.2.1) m R
          (fun e he => (hkeys e he).2.1) hR
      have hKm : (grid_maxima m).2.1 + 1 = K := by
        unfold grid_maxima
        rw [grid_maxima_proj]
        exact max_plus_one (fun e : (Int × Int × Int) × String => e.1.1) m K
          (fun e he => (hkeys e he).1) hK
      rw [hCm, hRm, hKm] at hcreate
      have key : ∀ L H W : Int, find s1._unit_image_shapes L = some (H, W) →
          s4._unit_image_shapes = s1._unit_image_shapes ∧ s4._composition_map = m ∧
            find s4._plate_image_shapes L = some [1, C, 1, R * H, K * W] := by
        intro L H W hL
        refine foldlM_some_induction (create_level env)
          (fun s => s._unit_image_shapes = s1._unit_image_shapes ∧ s._composition_map = m ∧
            find s._plate_image_shapes L = some [1, C, 1, R * H, K * W])
          (fun b a b' hb hP => create_level_keeps env m _ L _ b a b' hb hP) _ _ _ hcreate
          ⟨rfl, hmap, ?_⟩
        exact find_plate_fold C R K s1._unit_image_shapes [] L H W hnd hL
      have hU : s4._unit_image_shapes = s1._unit_image_shapes ∧ s4._composition_map = m :=
        foldlM_some_induction (create_level env)
          (fun s => s._unit_image_shapes = s1._unit_image_shapes ∧ s._composition_map = m)
          (fun b a b' hb hP => by
            unfold create_level at hb
            simp only at hb
            split_ifs at hb
            simp only [Option.some.injEq] at hb
            rw [← hb]; exact hP) _ _ _ hcreate ⟨rfl, hmap⟩
      rw [← hset]
      refine ⟨hU.2, ?_⟩
      intro L H W hL
      have hL1 : find s1._unit_image_shapes L = some (H, W) := by
        rw [← hU.1]; exact hL
      exact find_index_of_find _ 0 L [] _ (key L H W hL1).2.2

/-! ## The decomposition walk -/

theorem tile_index_facts (pos unit : Int) (hu : 0 < unit) (hp : 0 ≤ pos) :
    0 ≤ Int.tdiv pos unit ∧ Int.tdiv pos unit * unit ≤ pos ∧
      pos < (Int.tdiv pos unit + 1) * unit := by
  rw [Int.tdiv_eq_ediv hp (le_of_lt hu)]
  exact ⟨Int.ediv_nonneg hp (le_of_lt hu), Int.ediv_mul_le pos (ne_of_gt hu),
    Int.lt_ediv_add_one_mul_self pos hu⟩

theorem ColOK.mono {level channel y_start y_end x_start x_end W row ly ty tyd tye : Int}
    {pos pos' : Int} {t : Task} (h : pos' ≤ pos)
    (ok : ColOK level channel y_start y_end x_start x_end W row ly ty tyd tye pos t) :
    ColOK level channel y_start y_end x_start x_end W row ly ty tyd tye pos' t :=
  { ok with lx_ge := le_trans h ok.lx_ge }

theorem col_loop_spec (level channel y_start y_end x_start x_end W : Int)
    (row ly ty tyd tye : Int) (hW : 0 < W) (hx : 0 ≤ x_start) :
    ∀ (fuel : Nat) (pos : Int), x_start ≤ pos → (x_end - pos).toNat ≤ fuel →
      ∃ ts, col_loop level channel y_start y_end x_start x_end W row ly ty tyd tye fuel pos
          = some ts ∧
        (∀ t ∈ ts, ColOK level channel y_start y_end x_start x_end W row ly ty tyd tye pos t) ∧
        (∀ j : Int, ts.countP (fun t => decide (t.local_x_start ≤ j ∧
            j < t.local_x_start + t.tile_x_dim))
          = if pos - x_start ≤ j ∧ j < x_end - x_start then 1 else 0) := by
  intro fuel
  induction fuel with
  | zero =>
    intro pos hpos hfuel
    have hge : ¬ pos < x_end := by omega
    refine ⟨[], by simp [col_loop, hge], by simp, ?_⟩
    intro j
    rw [if_neg (by omega)]
    rfl
  | succ fuel ih =>
    intro pos hpos hfuel
    by_cases hlt : pos < x_end
    · obtain ⟨hc0, hc1, hc2⟩ := tile_index_facts pos W hW (le_trans hx hpos)
      generalize hcol : Int.tdiv pos W = col at hc0 hc1 hc2
      have hdim : 0 < min ((col + 1) * W - pos) (x_end - pos) := by
        rw [lt_min_iff]; constructor <;> omega
      generalize hd : min ((col + 1) * W - pos) (x_end - pos) = d at hdim
      have hd1 : d ≤ (col + 1) * W - pos := by rw [← hd]; exact min_le_left _ _
      have hd2 : d ≤ x_end - pos := by rw [← hd]; exact min_le_right _ _
      have hcw : (col + 1) * W = col * W + W := by ring
      obtain ⟨rest, hrest, hok, hcnt⟩ := ih (pos + d) (by omega) (by omega)
      refine ⟨Task.mk row col channel level x_start x_end (pos - x_start) (pos - col * W) d
        (pos - col * W + d) ly ty tyd tye y_start y_end (x_end - x_start) :: rest, ?_, ?_, ?_⟩
      · simp only [col_loop, hlt, if_true, if_neg (ne_of_gt hW), hcol, hd]
        have : pos + (pos - col * W + d - (pos - col * W)) = pos + d := by ring
        rw [this, hrest]
      · intro t ht
        rcases List.mem_cons.1 ht with rfl | ht
        · refine ⟨rfl, rfl, rfl, rfl, rfl, rfl, rfl, rfl, rfl, rfl, rfl, rfl, ?_, hc0,
            ?_, ?_, ?_, rfl, ?_, ?_, ?_⟩
          · show col = Int.tdiv (x_start + (pos - x_start)) W
            rw [show x_start + (pos - x_start) = pos by ring, hcol]
          · show 0 ≤ pos - col * W
            omega
          · show pos - col * W < pos - col * W + d
            omega
          · show pos - col * W + d ≤ W
            omega
          · show x_start + (pos - x_start) = col * W + (pos - col * W)
            ring
          · show pos ≤ x_start + (pos - x_start)
            omega
          · show x_start + (pos - x_start) + d ≤ x_end
            omega
        · exact (hok t ht).mono (by omega)
      · intro j
        rw [List.countP_cons, hcnt j]
        show _ + (if decide (pos - x_start ≤ j ∧ j < pos - x_start + d) = true then 1 else 0) = _
        simp only [decide_eq_true_eq]
        split_ifs <;> omega
    · refine ⟨[], by simp [col_loop, hlt], by simp, ?_⟩
      intro j
      rw [if_neg (by omega)]
      rfl

theorem row_loop_spec (level channel y_start y_end x_start x_end H W : Int)
    (hH : 0 < H) (hW : 0 < W) (hy : 0 ≤ y_start) (hx : 0 ≤ x_start) :
    ∀ (fuel : Nat) (pos : Int), y_start ≤ pos → (y_end - pos).toNat ≤ fuel →
      ∃ ts, row_loop level channel y_start y_end x_start x_end H W fuel pos = some ts ∧
        (∀ t ∈ ts, TaskOK level channel y_start y_end x_start x_end H W t) ∧
        (∀ i j : Int, ts.countP (fun t => t.covers i j)
          = if (pos - y_start ≤ i ∧ i < y_end - y_start) ∧ (0 ≤ j ∧ j < x_end - x_start)
            then 1 else 0) := by
  intro fuel
  induction fuel with
  | zero =>
    intro pos hpos hfuel
    have hge : ¬ pos < y_end := by omega
    refine ⟨[], by simp [row_loop, hge], by simp, ?_⟩
    intro i j
    rw [if_neg (by omega)]
    rfl
  | succ fuel ih =>
    intro pos hpos hfuel
    by_cases hlt : pos < y_end
    · obtain ⟨hr0, hr1, hr2⟩ := tile_index_facts pos H hH (le_trans hy hpos)
      generalize hrow : Int.tdiv pos H = row at hr0 hr1 hr2
      have hdim : 0 < min ((row + 1) * H - pos) (y_end - pos) := by
        rw [lt_min_iff]; constructor <;> omega
      generalize hd : min ((row + 1) * H - pos) (y_end - pos) = d at hdim
      have hd1 : d ≤ (row + 1) * H - pos := by rw [← hd]; exact min_le_left _ _
      have hd2 : d ≤ y_end - pos := by rw [← hd]; exact min_le_right _ _
      have hrh : (row + 1) * H = row * H + H := by ring
      obtain ⟨cts, hcts, hcok, hccnt⟩ :=
        col_loop_spec level channel y_start y_end x_start x_end W row (pos - y_start)
          (pos - row * H) d (pos - row * H + d) hW hx (x_end - x_start).toNat x_start
          (le_refl _) (le_refl _)
      obtain ⟨rest, hrest, hok, hcnt⟩ := ih (pos + d) (by omega) (by omega)
      refine ⟨cts ++ rest, ?_, ?_, ?_⟩
      · simp only [row_loop, hlt, if_true, if_neg (ne_of_gt hH), hrow, hd, hcts]
        have : pos + (pos - row * H + d - (pos - row * H)) = pos + d := by ring
        rw [this, hrest]
      · intro t ht
        rcases List.mem_append.1 ht with ht | ht
        · have ok := hcok t ht
          refine ⟨ok.channel_eq, ok.level_eq, ok.x_start_eq, ok.x_end_eq, ok.y_start_eq,
            ok.y_end_eq, ok.width_eq, ?_, ?_, ?_, ?_, ?_, ?_, ?_, ?_, ?_, ok.col_eq,
            ok.col_nonneg, ok.tx_nonneg, ok.tx_lt, ok.tx_le, ok.tx_end, ok.tx_pos, ok.lx_ge,
            ok.lx_le⟩
          · rw [ok.row_eq, ok.ly_eq, show y_start + (pos - y_start) = pos by ring, hrow]
          · rw [ok.row_eq]; exact hr0
          · rw [ok.ty_eq]; omega
          · rw [ok.ty_eq, ok.tye_eq]; omega
          · rw [ok.tye_eq]; omega
          · rw [ok.ty_eq, ok.tye_eq, ok.tyd_eq]
          · rw [ok.row_eq, ok.ly_eq, ok.ty_eq]; ring
          · rw [ok.ly_eq]; omega
          · rw [ok.ly_eq, ok.tyd_eq]; omega
        · exact hok t ht
      · intro i j
        rw [List.countP_append, hcnt i j]
        have hc : cts.countP (fun t => t.covers i j)
            = if (pos - y_start ≤ i ∧ i < pos - y_start + d) ∧ (0 ≤ j ∧ j < x_end - x_start)
              then 1 else 0 := by
          by_cases hi : pos - y_start ≤ i ∧ i < pos - y_start + d
          · rw [List.countP_congr (q := fun t => decide (t.local_x_start ≤ j ∧
                j < t.local_x_start + t.tile_x_dim)), hccnt j]
            · simp only [hi, true_and, sub_self, and_self]
            · intro t ht
              have ok := hcok t ht
              simp only [Task.covers, decide_eq_true_eq, ok.ly_eq, ok.tyd_eq]
              tauto
          · rw [if_neg (fun h => hi h.1), List.countP_eq_zero]
            intro t ht
            have ok := hcok t ht
            simp only [Task.covers, decide_eq_true_eq, ok.ly_eq, ok.tyd_eq]
            tauto
        rw [hc]
        split_ifs <;> omega
    · refine ⟨[], by simp [row_loop, hlt], by simp, ?_⟩
      intro i j
      rw [if_neg (by omega)]
      rfl

theorem decompose_spec (level channel y0 y1 x0 x1 H W : Int)
    (hH : 0 < H) (hW : 0 < W) (hy : 0 ≤ y0) (hx : 0 ≤ x0) :
    ∃ ts, decompose level channel y0 y1 x0 x1 H W = some ts ∧
      (∀ t ∈ ts, TaskOK level channel y0 y1 x0 x1 H W t) ∧
      (∀ i j : Int, ts.countP (fun t => t.covers i j)
        = if (0 ≤ i ∧ i < y1 - y0) ∧ (0 ≤ j ∧ j < x1 - x0) then 1 else 0) := by
  obtain ⟨ts, h1, h2, h3⟩ := row_loop_spec level channel y0 y1 x0 x1 H W hH hW hy hx
    (y1 - y0).toNat y0 (le_refl _) (le_refl _)
  refine ⟨ts, h1, h2, ?_⟩
  intro i j
  rw [h3 i j, sub_self]

theorem pairwise_of_countP_le_one (ts : List Task)
    (h : ∀ i j : Int, ts.countP (fun t => t.covers i j) ≤ 1) :
    ts.Pairwise (fun a b => ∀ i j : Int, ¬ (a.covers i j = true ∧ b.covers i j = true)) := by
  induction ts with
  | nil => exact List.Pairwise.nil
  | cons a l ih =>
    refine List.Pairwise.cons ?_ (ih ?_)
    · intro b hb i j hab
      have h1 := h i j
      rw [List.countP_cons, if_pos hab.1] at h1
      have h2 : 0 < l.countP (fun t => t.covers i j) :=
        List.countP_pos_iff.2 ⟨b, hb, hab.2⟩
      omega
    · intro i j
      have h1 := h i j
      rw [List.countP_cons] at h1
      omega

theorem mem_written_indices (t : Task) (n : Int) :
    n ∈ t.written_indices ↔ ∃ i k : Nat, i < (t.tile_y_end - t.tile_y_start).toNat ∧
      k < (t.tile_x_end - t.tile_x_start).toNat ∧
      n = (t.local_y_start + (i : Int)) * t.assembled_width + t.local_x_start + (k : Int) := by
  unfold Task.written_indices
  simp only [List.mem_flatMap, List.mem_map, List.mem_range]
  constructor
  · rintro ⟨i, hi, k, hk, rfl⟩
    exact ⟨i, k, hi, hk, rfl⟩
  · rintro ⟨i, k, hi, hk, rfl⟩
    exact ⟨i, hi, k, hk, rfl⟩

theorem written_iff_covers (level channel y0 y1 x0 x1 H W : Int) (t : Task)
    (ok : TaskOK level channel y0 y1 x0 x1 H W t) (n : Int) :
    n ∈ t.written_indices ↔
      (0 ≤ n ∧ n < (y1 - y0) * (x1 - x0)) ∧ t.covers (n / (x1 - x0)) (n % (x1 - x0)) = true := by
  have hty := ok.ty_end
  have htx := ok.tx_end
  have hw : 0 < x1 - x0 := by
    have := ok.lx_ge; have := ok.lx_le; have := ok.tx_lt; omega
  have hly : 0 ≤ t.local_y_start := by have := ok.ly_ge; omega
  have hlx : 0 ≤ t.local_x_start := by have := ok.lx_ge; omega
  have hyd : t.local_y_start + t.tile_y_dim ≤ y1 - y0 := by have := ok.ly_le; omega
  have hxd : t.local_x_start + t.tile_x_dim ≤ x1 - x0 := by have := ok.lx_le; omega
  rw [mem_written_indices, ok.width_eq]
  simp only [Task.covers, decide_eq_true_eq]
  generalize x1 - x0 = w at *
  generalize y1 - y0 = h at *
  constructor
  · rintro ⟨i, k, hi, hk, rfl⟩
    have hq : ((t.local_y_start + (i : Int)) * w + t.local_x_start + (k : Int)) / w
          = t.local_y_start + i ∧
        ((t.local_y_start + (i : Int)) * w + t.local_x_start + (k : Int)) % w
          = t.local_x_start + k := by
      rw [Int.ediv_emod_unique hw]
      refine ⟨by ring, by omega, by omega⟩
    rw [hq.1, hq.2]
    have h1 : 0 ≤ (t.local_y_start + (i : Int)) * w := mul_nonneg (by omega) (le_of_lt hw)
    have h2 : (t.local_y_start + (i : Int) + 1) * w ≤ h * w :=
      mul_le_mul_of_nonneg_right (by omega) (le_of_lt hw)
    have h3 : (t.local_y_start + (i : Int) + 1) * w = (t.local_y_start + (i : Int)) * w + w := by
      ring
    refine ⟨⟨by omega, by omega⟩, by omega, by omega, by omega, by omega⟩
  · rintro ⟨⟨hn0, hn1⟩, hc1, hc2, hc3, hc4⟩
    refine ⟨(n / w - t.local_y_start).toNat, (n % w - t.local_x_start).toNat, by omega, by omega, ?_⟩
    have h1 : ((n / w - t.local_y_start).toNat : Int) = n / w - t.local_y_start :=
      Int.toNat_of_nonneg (by omega)
    have h2 : ((n % w - t.local_x_start).toNat : Int) = n % w - t.local_x_start :=
      Int.toNat_of_nonneg (by omega)
    rw [h1, h2]
    have h3 := Int.ediv_add_emod n w
    have h4 : (t.local_y_start + (n / w - t.local_y_start)) * w = w * (n / w) := by ring
    rw [h4]
    omega

/-- Claim C8 (disjoint cover, boundary correctness).  For tiles of `H > 0` by `W > 0`
and an output region with `0 ≤ y0 < y1` and `0 ≤ x0 < x1`, of any height `h = y1 - y0`
and width `w = x1 - x0`, the walk ends and the destination rectangles
`[local_y_start, local_y_start + tile_y_dim) x [local_x_start, local_x_start + tile_x_dim)`
of its tasks are non-empty, lie inside `[0, h) x [0, w)`, are pairwise disjoint and
cover every cell of `[0, h) x [0, w)` exactly once; the indices written by the row
copies of every task lie in `[0, h * w)` and every index of `[0, h * w)` is written by
exactly one task. -/
theorem decompose_disjoint_cover (level channel H W y0 y1 x0 x1 : Int)
    (hH : 0 < H) (hW : 0 < W) (hy0 : 0 ≤ y0) (hy : y0 < y1) (hx0 : 0 ≤ x0) (hx : x0 < x1) :
    ∃ tasks, decompose level channel y0 y1 x0 x1 H W = some tasks ∧
      (∀ t ∈ tasks, 0 ≤ t.local_y_start ∧ 0 < t.tile_y_dim ∧
        t.local_y_start + t.tile_y_dim ≤ y1 - y0 ∧
        0 ≤ t.local_x_start ∧ 0 < t.tile_x_dim ∧
        t.local_x_start + t.tile_x_dim ≤ x1 - x0) ∧
      tasks.Pairwise (fun a b => ∀ i j : Int, ¬ (a.covers i j = true ∧ b.covers i j = true)) ∧
      (∀ i j : Int, 0 ≤ i → i < y1 - y0 → 0 ≤ j → j < x1 - x0 →
        tasks.countP (fun t => t.covers i j) = 1) ∧
      (∀ t ∈ tasks, t.assembled_width = x1 - x0 ∧
        ∀ n ∈ t.written_indices, 0 ≤ n ∧ n < (y1 - y0) * (x1 - x0)) ∧
      (∀ n : Int, 0 ≤ n → n < (y1 - y0) * (x1 - x0) →
        tasks.countP (fun t => decide (n ∈ t.written_indices)) = 1) := by
  obtain ⟨ts, h1, h2, h3⟩ := decompose_spec level channel y0 y1 x0 x1 H W hH hW hy0 hx0
  refine ⟨ts, h1, ?_, ?_, ?_, ?_, ?_⟩
  · intro t ht
    have ok := h2 t ht
    have := ok.ly_ge; have := ok.ly_le; have := ok.lx_ge; have := ok.lx_le
    have := ok.ty_lt; have := ok.ty_end; have := ok.tx_lt; have := ok.tx_end
    refine ⟨by omega, by omega, by omega, by omega, by omega, by omega⟩
  · apply pairwise_of_countP_le_one
    intro i j
    rw [h3 i j]
    split_ifs <;> omega
  · intro i j hi0 hi1 hj0 hj1
    rw [h3 i j, if_pos ⟨⟨hi0, hi1⟩, hj0, hj1⟩]
  · intro t ht
    refine ⟨(h2 t ht).width_eq, ?_⟩
    intro n hn
    exact ((written_iff_covers level channel y0 y1 x0 x1 H W t (h2 t ht) n).1 hn).1
  · intro n hn0 hn1
    have hw : 0 < x1 - x0 := by omega
    rw [List.countP_congr (q := fun t => t.covers (n / (x1 - x0)) (n % (x1 - x0))), h3]
    · rw [if_pos]
      refine ⟨⟨Int.ediv_nonneg hn0 (le_of_lt hw), Int.ediv_lt_of_lt_mul hw hn1⟩,
        Int.emod_nonneg n (ne_of_gt hw), Int.emod_lt_of_pos n hw⟩
    · intro t ht
      rw [decide_eq_true_eq, written_iff_covers level channel y0 y1 x0 x1 H W t (h2 t ht) n]
      exact ⟨fun h => h.2, fun h => ⟨⟨hn0, hn1⟩, h⟩⟩

/-- Claim C9 (queries stay inside the grid).  For a grid of `R` rows, `K` columns and
`C` channels, tiles of `H > 0` by `W > 0`, an output region with
`0 ≤ y0 < y1 ≤ R * H` and `0 ≤ x0 < x1 ≤ K * W` and a channel `0 ≤ c < C`, the walk
ends and every task looks up the key `(col, row, c)` with `0 ≤ row < R` and
`0 ≤ col < K`. -/
theorem decompose_keys_in_grid (level c H W y0 y1 x0 x1 R K C : Int)
    (hH : 0 < H) (hW : 0 < W) (hy0 : 0 ≤ y0) (hy : y0 < y1) (hy1 : y1 ≤ R * H)
    (hx0 : 0 ≤ x0) (hx : x0 < x1) (hx1 : x1 ≤ K * W) (hc0 : 0 ≤ c) (hc : c < C) :
    ∃ tasks, decompose level c y0 y1 x0 x1 H W = some tasks ∧
      ∀ t ∈ tasks, t.key = (t.col, t.row, c) ∧
        (0 ≤ t.row ∧ t.row < R) ∧ (0 ≤ t.col ∧ t.col < K) ∧ (0 ≤ t.channel ∧ t.channel < C) := by
  obtain ⟨ts, h1, h2, _⟩ := decompose_spec level c y0 y1 x0 x1 H W hH hW hy0 hx0
  refine ⟨ts, h1, ?_⟩
  intro t ht
  have ok := h2 t ht
  have hrow : t.row < R := by
    have h3 : t.row * H < R * H := by
      have := ok.ty_pos; have := ok.ly_le; have := ok.ty_nonneg; have := ok.ty_lt
      have := ok.ty_end
      omega
    exact lt_of_mul_lt_mul_right h3 (le_of_lt hH)
  have hcol : t.col < K := by
    have h3 : t.col * W < K * W := by
      have := ok.tx_pos; have := ok.lx_le; have := ok.tx_nonneg; have := ok.tx_lt
      have := ok.tx_end
      omega
    exact lt_of_mul_lt_mul_right h3 (le_of_lt hW)
  refine ⟨?_, ⟨ok.row_nonneg, hrow⟩, ⟨ok.col_nonneg, hcol⟩, ?_⟩
  · simp only [Task.key, ok.channel_eq]
  · rw [ok.channel_eq]; exact ⟨hc0, hc⟩

/-- Claim C10 (tile alignment).  For tiles of `H > 0` by `W > 0` and an output region
with `0 ≤ y0 < y1` and `0 ≤ x0 < x1`, the walk ends and every task has
`0 ≤ tile_y_start < tile_y_end ≤ H`, `0 ≤ tile_x_start < tile_x_end ≤ W`,
`y0 + local_y_start = row * H + tile_y_start` and
`x0 + local_x_start = col * W + tile_x_start`: with `(Y, X)` the plate position of its
top-left destination cell, its source rectangle starts at `(Y mod H, X mod W)`, has
the extent of its destination rectangle, and `row = Y / H`, `col = X / W`. -/
theorem decompose_tile_aligned (level channel H W y0 y1 x0 x1 : Int)
    (hH : 0 < H) (hW : 0 < W) (hy0 : 0 ≤ y0) (hy : y0 < y1) (hx0 : 0 ≤ x0) (hx : x0 < x1) :
    ∃ tasks, decompose level channel y0 y1 x0 x1 H W = some tasks ∧
      ∀ t ∈ tasks,
        (0 ≤ t.tile_y_start ∧ t.tile_y_start < t.tile_y_end ∧ t.tile_y_end ≤ H) ∧
        (0 ≤ t.tile_x_start ∧ t.tile_x_start < t.tile_x_end ∧ t.tile_x_end ≤ W) ∧
        y0 + t.local_y_start = t.row * H + t.tile_y_start ∧
        x0 + t.local_x_start = t.col * W + t.tile_x_start ∧
        t.tile_y_end = t.tile_y_start + t.tile_y_dim ∧
        t.tile_x_end = t.tile_x_start + t.tile_x_dim ∧
        t.tile_y_start = (y0 + t.local_y_start) % H ∧
        t.tile_x_start = (x0 + t.local_x_start) % W ∧
        t.row = (y0 + t.local_y_start) / H ∧
        t.col = (x0 + t.local_x_start) / W := by
  obtain ⟨ts, h1, h2, _⟩ := decompose_spec level channel y0 y1 x0 x1 H W hH hW hy0 hx0
  refine ⟨ts, h1, ?_⟩
  intro t ht
  have ok := h2 t ht
  have hy' : (y0 + t.local_y_start) / H = t.row ∧ (y0 + t.local_y_start) % H = t.tile_y_start := by
    rw [Int.ediv_emod_unique hH]
    refine ⟨?_, ok.ty_nonneg, ?_⟩
    · rw [ok.ty_pos]; ring
    · have := ok.ty_lt; have := ok.ty_le; omega
  have hx' : (x0 + t.local_x_start) / W = t.col ∧ (x0 + t.local_x_start) % W = t.tile_x_start := by
    rw [Int.ediv_emod_unique hW]
    refine ⟨?_, ok.tx_nonneg, ?_⟩
    · rw [ok.tx_pos]; ring
    · have := ok.tx_lt; have := ok.tx_le; omega
  exact ⟨⟨ok.ty_nonneg, ok.ty_lt, ok.ty_le⟩, ⟨ok.tx_nonneg, ok.tx_lt, ok.tx_le⟩, ok.ty_pos,
    ok.tx_pos, ok.ty_end, ok.tx_end, hy'.2.symm, hx'.2.symm, hy'.1.symm, hx'.1.symm⟩

/-! ## The materialization cache -/

theorem run_task_cache (env : Env) (s s1 : PyramidCompositor) (t : Task) (vec vec1 : Vec)
    (events : List Event) (h : run_task env s t vec = some (s1, vec1, events)) :
    s1._chunk_cache = s._chunk_cache := by
  unfold run_task at h
  simp only at h
  split at h
  · exact absurd h (by simp)
  · split at h
    · exact absurd h (by simp)
    · split at h
      · exact absurd h (by simp)
      · simp only [Option.some.injEq, Prod.mk.injEq] at h
        rw [← h.1]

theorem run_tasks_cache (env : Env) :
    ∀ (ts : List Task) (s s1 : PyramidCompositor) (vec vec1 : Vec) (events : List Event),
      run_tasks env s ts vec = some (s1, vec1, events) → s1._chunk_cache = s._chunk_cache := by
  intro ts
  induction ts with
  | nil =>
    intro s s1 vec vec1 events h
    simp only [run_tasks, Option.some.injEq, Prod.mk.injEq] at h
    rw [← h.1]
  | cons t rest ih =>
    intro s s1 vec vec1 events h
    simp only [run_tasks] at h
    split at h
    · exact absurd h (by simp)
    · rename_i sa va ea hta
      split at h
      · exact absurd h (by simp)
      · rename_i sb vb eb htb
        simp only [Option.some.injEq, Prod.mk.injEq] at h
        rw [← h.1, ih _ _ _ _ _ htb, run_task_cache env _ _ _ _ _ _ hta]

theorem _write_zarr_chunk_cache (env : Env) (s s1 : PyramidCompositor)
    (level channel y_index x_index : Int) (events : List Event)
    (h : _write_zarr_chunk env s level channel y_index x_index = some (s1, events)) :
    s1._chunk_cache = s._chunk_cache := by
  unfold _write_zarr_chunk at h
  split at h
  · exact absurd h (by simp)
  · simp only at h
    split_ifs at h
    split at h
    · exact absurd h (by simp)
    · split at h
      · exact absurd h (by simp)
      · rename_i sa va ea hta
        split at h
        · exact absurd h (by simp)
        · simp only [Option.some.injEq, Prod.mk.injEq] at h
          rw [← h.1, run_tasks_cache env _ _ _ _ _ _ hta]

/-- Claim C4 (idempotence).  If a call `write_zarr_chunk(L, c, y, x)` returns and the
key `(L, c, y, x)` is in the materialization cache after it, then the same call made
right after it returns the compositor unchanged and does nothing to the outside
world (no source read, no output write); and when the key was not in the cache before
the first call, the cache has exactly one more element after the two calls. -/
theorem write_zarr_chunk_idempotent (env : Env) (s s1 : PyramidCompositor)
    (level channel y_index x_index : Int) (events : List Event)
    (hcall : write_zarr_chunk env s level channel y_index x_index = some (s1, events))
    (hrec : (level, channel, y_index, x_index) ∈ s1._chunk_cache) :
    write_zarr_chunk env s1 level channel y_index x_index = some (s1, []) ∧
      ((level, channel, y_index, x_index) ∉ s._chunk_cache →
        s1._chunk_cache.length = s._chunk_cache.length + 1) := by
  refine ⟨by simp only [write_zarr_chunk, hrec, if_true], ?_⟩
  intro habs
  unfold write_zarr_chunk at hcall
  simp only [habs, if_false] at hcall
  split at hcall
  · simp only [Option.some.injEq, Prod.mk.injEq] at hcall
    rw [← hcall.1] at hrec
    exact absurd hrec habs
  · split at hcall
    · exact absurd hcall (by simp)
    · split_ifs at hcall
      · split at hcall
        · exact absurd hcall (by simp)
        · rename_i sa ea hta
          simp only [Option.some.injEq, Prod.mk.injEq] at hcall
          rw [← hcall.1]
          have hc := _write_zarr_chunk_cache env _ _ _ _ _ _ _ hta
          simp only [hc]
          exact List.length_insert_of_not_mem habs
      · simp only [Option.some.injEq, Prod.mk.injEq] at hcall
        rw [← hcall.1]
        exact List.length_insert_of_not_mem habs

/-- Claim C5 (reset law).  After `reset_composition()` the composition map, the plate
shapes, the output handles and the materialization cache are empty, and every
sequence of `write_zarr_chunk` calls made after it, with any integer arguments, leaves
the compositor as it is after the reset and each call only prints that no composition
map is set: no source is read and nothing is written or recorded. -/
theorem reset_composition_law (env : Env) (s : PyramidCompositor) :
    (reset_composition s).1._composition_map = [] ∧
      (reset_composition s).1._plate_image_shapes = [] ∧
      (reset_composition s).1._zarr_arrays = [] ∧
      (reset_composition s).1._chunk_cache = [] ∧
      ∀ requests : List (Int × Int × Int × Int),
        write_zarr_chunks env (reset_composition s).1 requests =
          some ((reset_composition s).1,
            requests.map fun _ =>
              [Event.cerr "No composition map is set. Unable to generate pyramid"]) := by
  refine ⟨rfl, rfl, rfl, rfl, ?_⟩
  intro requests
  induction requests with
  | nil => rfl
  | cons r rest ih =>
    obtain ⟨level, channel, y_index, x_index⟩ := r
    have h1 : write_zarr_chunk env (reset_composition s).1 level channel y_index x_index
        = some ((reset_composition s).1,
            [Event.cerr "No composition map is set. Unable to generate pyramid"]) := by
      simp [write_zarr_chunk, precheck, reset_composition]
    simp only [write_zarr_chunks, h1, ih, List.map_cons]

/-! ## Frame of `write_zarr_chunk` and reachable compositors -/

/-- What the guards of `write_zarr_chunk` check, exactly. -/
theorem precheck_eq_none_iff (s : PyramidCompositor) (level channel y_index x_index : Int) :
    precheck s level channel y_index x_index = none ↔
      s._composition_map ≠ [] ∧ (find s._unit_image_shapes level).isSome = true ∧
      channel < s._num_channels ∧
      ∃ plate_shape, find s._plate_image_shapes level = some plate_shape ∧
        5 ≤ plate_shape.length ∧
        y_index ≤ Int.tdiv (plate_shape.getD 3 0) CHUNK_SIZE ∧
        x_index ≤ Int.tdiv (plate_shape.getD 4 0) CHUNK_SIZE := by
  unfold precheck
  constructor
  · intro h
    split_ifs at h with h1 h2 h3
    split at h
    · exact absurd h (by simp)
    · rename_i plate_shape hp
      split_ifs at h with h4 h5
      refine ⟨?_, ?_, by omega, plate_shape, hp, by omega, by omega, by omega⟩
      · intro h0; rw [h0] at h1; exact h1 rfl
      · cases hf : find s._unit_image_shapes level with
        | none => rw [hf] at h2; exact absurd rfl h2
        | some v => rfl
  · rintro ⟨h1, h2, h3, plate_shape, hp, h5, h6, h7⟩
    have e1 : s._composition_map.isEmpty = false := by
      cases hm : s._composition_map with
      | nil => exact absurd hm h1
      | cons a l => rfl
    have e2 : (find s._unit_image_shapes level).isNone = false := by
      cases hf : find s._unit_image_shapes level with
      | none => rw [hf] at h2; exact absurd h2 (by simp)
      | some v => rfl
    simp only [e1, e2, hp, Bool.false_eq_true, if_false, ge_iff_le, gt_iff_lt]
    rw [if_neg (by omega), if_neg (by omega), if_neg (by omega)]

theorem run_task_keeps_paths (env : Env) (s s1 : PyramidCompositor) (t : Task) (vec vec1 : Vec)
    (events : List Event) (h : run_task env s t vec = some (s1, vec1, events))
    (k : Int × Int × Int) (p : String) (hk : find s._composition_map k = some p) :
    find s1._composition_map k = some p := by
  unfold run_task at h
  simp only at h
  split at h
  · exact absurd h (by simp)
  · split at h
    · exact absurd h (by simp)
    · split at h
      · exact absurd h (by simp)
      · simp only [Option.some.injEq, Prod.mk.injEq] at h
        rw [← h.1]
        exact find_index_of_find _ _ _ _ _ hk

theorem run_tasks_keeps_paths (env : Env) (k : Int × Int × Int) (p : String) :
    ∀ (ts : List Task) (s s1 : PyramidCompositor) (vec vec1 : Vec) (events : List Event),
      run_tasks env s ts vec = some (s1, vec1, events) →
      find s._composition_map k = some p → find s1._composition_map k = some p := by
  intro ts
  induction ts with
  | nil =>
    intro s s1 vec vec1 events h hk
    simp only [run_tasks, Option.some.injEq, Prod.mk.injEq] at h
    rw [← h.1]; exact hk
  | cons t rest ih =>
    intro s s1 vec vec1 events h hk
    simp only [run_tasks] at h
    split at h
    · exact absurd h (by simp)
    · rename_i sa va ea hta
      split at h
      · exact absurd h (by simp)
      · rename_i sb vb eb htb
        simp only [Option.some.injEq, Prod.mk.injEq] at h
        rw [← h.1]
        exact ih _ _ _ _ _ htb (run_task_keeps_paths env _ _ _ _ _ _ hta k p hk)

theorem _write_zarr_chunk_keeps_paths (env : Env) (s s1 : PyramidCompositor)
    (level channel y_index x_index : Int) (events : List Event)
    (h : _write_zarr_chunk env s level channel y_index x_index = some (s1, events))
    (k : Int × Int × Int) (p : String) (hk : find s._composition_map k = some p) :
    find s1._composition_map k = some p := by
  unfold _write_zarr_chunk at h
  split at h
  · exact absurd h (by simp)
  · simp only at h
    split_ifs at h
    split at h
    · exact absurd h (by simp)
    · split at h
      · exact absurd h (by simp)
      · rename_i sa va ea hta
        split at h
        · exact absurd h (by simp)
        · simp only [Option.some.injEq, Prod.mk.injEq] at h
          rw [← h.1]
          exact run_tasks_keeps_paths env k p _ _ _ _ _ _ hta hk

/-- A call of `write_zarr_chunk` never changes or removes an entry of the composition
map: it can only add keys. -/
theorem write_zarr_chunk_keeps_paths (env : Env) (s s1 : PyramidCompositor)
    (level channel y_index x_index : Int) (events : List Event)
    (hcall : write_zarr_chunk env s level channel y_index x_index = some (s1, events))
    (k : Int × Int × Int) (p : String) (hk : find s._composition_map k = some p) :
    find s1._composition_map k = some p := by
  unfold write_zarr_chunk at hcall
  simp only at hcall
  split_ifs at hcall
  · simp only [Option.some.injEq, Prod.mk.injEq] at hcall
    rw [← hcall.1]; exact hk
  · split at hcall
    · simp only [Option.some.injEq, Prod.mk.injEq] at hcall
      rw [← hcall.1]; exact hk
    · split at hcall
      · exact absurd hcall (by simp)
      · split_ifs at hcall
        · split at hcall
          · exact absurd hcall (by simp)
          · rename_i sa ea hta
            simp only [Option.some.injEq, Prod.mk.injEq] at hcall
            rw [← hcall.1]
            exact _write_zarr_chunk_keeps_paths env _ _ _ _ _ _ _ hta k p
              (find_index_of_find _ _ _ _ _ hk)
        · simp only [Option.some.injEq, Prod.mk.injEq] at hcall
          rw [← hcall.1]
          exact find_index_of_find _ _ _ _ _ hk

theorem nodup_keys_index {K V : Type} [DecidableEq K] (m : List (K × V)) (k : K) (d : V)
    (h : (m.map Prod.fst).Nodup) : ((index m k d).2.map Prod.fst).Nodup := by
  unfold index
  split
  · exact h
  · exact nodup_keys_assign m k d h

theorem run_task_unit (env : Env) (s s1 : PyramidCompositor) (t : Task) (vec vec1 : Vec)
    (events : List Event) (h : run_task env s t vec = some (s1, vec1, events)) :
    s1._unit_image_shapes = s._unit_image_shapes := by
  unfold run_task at h
  simp only at h
  split at h
  · exact absurd h (by simp)
  · split at h
    · exact absurd h (by simp)
    · split at h
      · exact absurd h (by simp)
      · simp only [Option.some.injEq, Prod.mk.injEq] at h
        rw [← h.1]

theorem run_tasks_unit (env : Env) :
    ∀ (ts : List Task) (s s1 : PyramidCompositor) (vec vec1 : Vec) (events : List Event),
      run_tasks env s ts vec = some (s1, vec1, events) →
      s1._unit_image_shapes = s._unit_image_shapes := by
  intro ts
  induction ts with
  | nil =>
    intro s s1 vec vec1 events h
    simp only [run_tasks, Option.some.injEq, Prod.mk.injEq] at h
    rw [← h.1]
  | cons t rest ih =>
    intro s s1 vec vec1 events h
    simp only [run_tasks] at h
    split at h
    · exact absurd h (by simp)
    · rename_i sa va ea hta
      split at h
      · exact absurd h (by simp)
      · rename_i sb vb eb htb
        simp only [Option.some.injEq, Prod.mk.injEq] at h
        rw [← h.1, ih _ _ _ _ _ htb, run_task_unit env _ _ _ _ _ _ hta]

theorem _write_zarr_chunk_unit (env : Env) (s s1 : PyramidCompositor)
    (level channel y_index x_index : Int) (events : List Event)
    (h : _write_zarr_chunk env s level channel y_index x_index = some (s1, events)) :
    s1._unit_image_shapes = (index s._unit_image_shapes level (0, 0)).2 := by
  unfold _write_zarr_chunk at h
  split at h
  · exact absurd h (by simp)
  · simp only at h
    split_ifs at h
    split at h
    · exact absurd h (by simp)
    · split at h
      · exact absurd h (by simp)
      · rename_i sa va ea hta
        split at h
        · exact absurd h (by simp)
        · simp only [Option.some.injEq, Prod.mk.injEq] at h
          rw [← h.1, run_tasks_unit env _ _ _ _ _ _ hta]

theorem write_zarr_chunk_unit_nodup (env : Env) (s s1 : PyramidCompositor)
    (level channel y_index x_index : Int) (events : List Event)
    (hcall : write_zarr_chunk env s level channel y_index x_index = some (s1, events))
    (h : (s._unit_image_shapes.map Prod.fst).Nodup) :
    (s1._unit_image_shapes.map Prod.fst).Nodup := by
  unfold write_zarr_chunk at hcall
  simp only at hcall
  split_ifs at hcall
  · simp only [Option.some.injEq, Prod.mk.injEq] at hcall
    rw [← hcall.1]; exact h
  · split at hcall
    · simp only [Option.some.injEq, Prod.mk.injEq] at hcall
      rw [← hcall.1]; exact h
    · split at hcall
      · exact absurd hcall (by simp)
      · split_ifs at hcall
        · split at hcall
          · exact absurd hcall (by simp)
          · rename_i sa ea hta
            simp only [Option.some.injEq, Prod.mk.injEq] at hcall
            rw [← hcall.1]
            have hu := _write_zarr_chunk_unit env _ _ _ _ _ _ _ hta
            simp only [hu]
            exact nodup_keys_index _ _ _ h
        · simp only [Option.some.injEq, Prod.mk.injEq] at hcall
          rw [← hcall.1]; exact h

theorem create_level_unit (env : Env) (s : PyramidCompositor) (level : Int)
    (s' : PyramidCompositor) (h : create_level env s level = some s') :
    s'._unit_image_shapes = s._unit_image_shapes := by
  unfold create_level at h
  simp only at h
  split_ifs at h
  simp only [Option.some.injEq] at h
  rw [← h]

theorem set_composition_unit_nodup (env : Env) (s s' : PyramidCompositor)
    (m : List ((Int × Int × Int) × String))
    (hset : set_composition env s m = some s')
    (h : (s._unit_image_shapes.map Prod.fst).Nodup) :
    (s'._unit_image_shapes.map Prod.fst).Nodup := by
  unfold set_composition at hset
  split at hset
  · exact absurd hset (by simp)
  · rename_i s1 hdisc
    simp only at hset
    split at hset
    · exact absurd hset (by simp)
    · rename_i s4 hcreate
      simp only [Option.some.injEq] at hset
      obtain ⟨hnd, _⟩ := discover_keeps env m m _ s1 hdisc ⟨h, rfl⟩
      have hU : s4._unit_image_shapes = s1._unit_image_shapes :=
        foldlM_some_induction (create_level env)
          (fun s => s._unit_image_shapes = s1._unit_image_shapes)
          (fun b a b' hb hP => (create_level_unit env b a b' hb).trans hP)
          _ _ _ hcreate rfl
      rw [← hset]
      show (s4._unit_image_shapes.map Prod.fst).Nodup
      rw [hU]; exact hnd

/-- In every reachable compositor the levels of `_unit_image_shapes` are distinct. -/
theorem reachable_unit_levels_nodup (s : PyramidCompositor) (h : Reachable s) :
    (s._unit_image_shapes.map Prod.fst).Nodup := by
  induction h with
  | new a b c => exact List.nodup_nil
  | set_composition env s s' m _ hset ih => exact set_composition_unit_nodup env s s' m hset ih
  | write_zarr_chunk env s s' level channel y_index x_index events _ hcall ih =>
    exact write_zarr_chunk_unit_nodup env s s' level channel y_index x_index events hcall ih
  | reset_composition s _ ih => exact ih

/-! ## The scenarios of the specification -/

set_option maxRecDepth 100000

/-- Scenario E1 for claim C2: `set_composition` returns, and the plate shape of level
`0` is `(1, 1, 1, 512, 512)`. -/
theorem plate_shape_law_witness :
    ∃ s', set_composition envE1 fresh mapE1 = some s' ∧
      find s'._unit_image_shapes 0 = some (512, 512) ∧
      find s'._plate_image_shapes 0 = some [1, 1, 1, 512, 512] := by
  have hsome : (set_composition envE1 fresh mapE1).isSome = true := by decide
  obtain ⟨s', hs'⟩ := Option.isSome_iff_exists.1 hsome
  have hunit : (set_composition envE1 fresh mapE1).map (fun s => find s._unit_image_shapes 0)
      = some (some (512, 512)) := by decide
  rw [hs'] at hunit
  simp only [Option.map_some', Option.some.injEq] at hunit
  have h := (plate_shape_law envE1 fresh s' mapE1 1 1 1 (by decide) (by decide) (by decide)
    (by decide) (by decide) hs').2 0 512 512 hunit
  exact ⟨s', hs', hunit, h⟩

/-- Scenario E4 for claim C4: `write_zarr_chunk(0, 2, 0, 0)` twice. -/
theorem write_zarr_chunk_idempotent_witness :
    ∃ s s1 events, stateE4 = some s ∧
      write_zarr_chunk envE4 s 0 2 0 0 = some (s1, events) ∧
      (0, 2, 0, 0) ∈ s1._chunk_cache ∧
      write_zarr_chunk envE4 s1 0 2 0 0 = some (s1, []) ∧
      s1._chunk_cache.length = s._chunk_cache.length + 1 := by
  have hsome : stateE4.isSome = true := by decide
  obtain ⟨s, hs⟩ := Option.isSome_iff_exists.1 hsome
  have hcall : (stateE4.bind fun s => write_zarr_chunk envE4 s 0 2 0 0).isSome = true := by decide
  rw [hs] at hcall
  obtain ⟨⟨s1, events⟩, h1⟩ := Option.isSome_iff_exists.1 hcall
  simp only [Option.some_bind] at h1
  have hrec : (stateE4.bind fun s => (write_zarr_chunk envE4 s 0 2 0 0).map fun r =>
      decide ((0, 2, 0, 0) ∈ r.1._chunk_cache)) = some true := by decide
  rw [hs] at hrec
  simp only [Option.some_bind, h1, Option.map_some', Option.some.injEq, decide_eq_true_eq] at hrec
  have habs : stateE4.map (fun s => s._chunk_cache) = some [] := by decide
  rw [hs] at habs
  simp only [Option.map_some', Option.some.injEq] at habs
  have h := write_zarr_chunk_idempotent envE4 s s1 0 2 0 0 events h1 hrec
  exact ⟨s, s1, events, hs, h1, hrec, h.1, h.2 (by rw [habs]; simp)⟩

/-- Scenario E3 for claim C8: the boundary chunk `[1024, 1500) x [1024, 1500)` of a
single 1500 by 1500 tile is one task of 476 by 476. -/
theorem decompose_disjoint_cover_witness :
    decompose 0 0 1024 1500 1024 1500 1500 1500 =
      some [⟨0, 0, 0, 0, 1024, 1500, 0, 1024, 476, 1500, 0, 1024, 476, 1500, 1024, 1500, 476⟩] ∧
    ∃ tasks, decompose 0 0 1024 1500 1024 1500 1500 1500 = some tasks ∧
      (∀ t ∈ tasks, 0 ≤ t.local_y_start ∧ 0 < t.tile_y_dim ∧
        t.local_y_start + t.tile_y_dim ≤ 1500 - 1024 ∧
        0 ≤ t.local_x_start ∧ 0 < t.tile_x_dim ∧
        t.local_x_start + t.tile_x_dim ≤ 1500 - 1024) ∧
      tasks.Pairwise (fun a b => ∀ i j : Int, ¬ (a.covers i j = true ∧ b.covers i j = true)) ∧
      (∀ i j : Int, 0 ≤ i → i < 1500 - 1024 → 0 ≤ j → j < 1500 - 1024 →
        tasks.countP (fun t => t.covers i j) = 1) ∧
      (∀ t ∈ tasks, t.assembled_width = 1500 - 1024 ∧
        ∀ n ∈ t.written_indices, 0 ≤ n ∧ n < (1500 - 1024) * (1500 - 1024)) ∧
      (∀ n : Int, 0 ≤ n → n < (1500 - 1024) * (1500 - 1024) →
        tasks.countP (fun t => decide (n ∈ t.written_indices)) = 1) :=
  ⟨by decide, decompose_disjoint_cover 0 0 1500 1500 1024 1500 1024 1500 (by decide) (by decide)
    (by decide) (by decide) (by decide) (by decide)⟩

/-- Scenario E2 for claim C9: a 2x2 grid of 600 by 600 tiles, chunk `(0, 0)`. -/
theorem decompose_keys_in_grid_witness :
    ∃ tasks, decompose 0 0 0 1024 0 1024 600 600 = some tasks ∧
      ∀ t ∈ tasks, t.key = (t.col, t.row, 0) ∧
        (0 ≤ t.row ∧ t.row < 2) ∧ (0 ≤ t.col ∧ t.col < 2) ∧ (0 ≤ t.channel ∧ t.channel < 1) :=
  decompose_keys_in_grid 0 0 600 600 0 1024 0 1024 2 2 1 (by decide) (by decide) (by decide)
    (by decide) (by decide) (by decide) (by decide) (by decide) (by decide) (by decide)

/-- Scenario E2 for claim C10: the walk yields exactly the four tasks
`(row, col, src, dst)` = `(0, 0, [0:600, 0:600], [0:600, 0:600])`,
`(0, 1, [0:600, 0:424], [0:600, 600:1024])`, `(1, 0, [0:424, 0:600], [600:1024, 0:600])`,
`(1, 1, [0:424, 0:424], [600:1024, 600:1024])`. -/
theorem decompose_tile_aligned_witness :
    decompose 0 0 0 1024 0 1024 600 600 =
      some [⟨0, 0, 0, 0, 0, 1024, 0, 0, 600, 600, 0, 0, 600, 600, 0, 1024, 1024⟩,
            ⟨0, 1, 0, 0, 0, 1024, 600, 0, 424, 424, 0, 0, 600, 600, 0, 1024, 1024⟩,
            ⟨1, 0, 0, 0, 0, 1024, 0, 0, 600, 600, 600, 0, 424, 424, 0, 1024, 1024⟩,
            ⟨1, 1, 0, 0, 0, 1024, 600, 0, 424, 424, 600, 0, 424, 424, 0, 1024, 1024⟩] ∧
    ∃ tasks, decompose 0 0 0 1024 0 1024 600 600 = some tasks ∧
      ∀ t ∈ tasks,
        (0 ≤ t.tile_y_start ∧ t.tile_y_start < t.tile_y_end ∧ t.tile_y_end ≤ 600) ∧
        (0 ≤ t.tile_x_start ∧ t.tile_x_start < t.tile_x_end ∧ t.tile_x_end ≤ 600) ∧
        0 + t.local_y_start = t.row * 600 + t.tile_y_start ∧
        0 + t.local_x_start = t.col * 600 + t.tile_x_start ∧
        t.tile_y_end = t.tile_y_start + t.tile_y_dim ∧
        t.tile_x_end = t.tile_x_start + t.tile_x_dim ∧
        t.tile_y_start = (0 + t.local_y_start) % 600 ∧
        t.tile_x_start = (0 + t.local_x_start) % 600 ∧
        t.row = (0 + t.local_y_start) / 600 ∧
        t.col = (0 + t.local_x_start) / 600 :=
  ⟨by decide, decompose_tile_aligned 0 0 600 600 0 1024 0 1024 (by decide) (by decide)
    (by decide) (by decide) (by decide) (by decide)⟩

/-- Claim C1 (pixel provenance) on scenario E2, `write_zarr_chunk(0, 0, 0, 0)`.  The
four tasks should read the source rectangles `[0:600, 0:600]`, `[0:600, 0:424]`,
`[0:424, 0:600]` and `[0:424, 0:424]` of their tiles; each of them requests the rows
`0..1023` and the columns `0..1023`, the plate coordinates of the chunk, from a 600 by
600 source, into an array of the shape of its rectangle.  No source has pixels over
that range: the read fails and no buffer reaches the output write. -/
theorem read_requests_on_E2 :
    (decompose 0 0 0 1024 0 1024 600 600).map (fun ts => ts.map fun t =>
        (t.key, (t.tile_y_start, t.tile_y_end - 1), (t.tile_x_start, t.tile_x_end - 1))) =
      some [((0, 0, 0), (0, 599), (0, 599)), ((1, 0, 0), (0, 599), (0, 423)),
            ((0, 1, 0), (0, 423), (0, 599)), ((1, 1, 0), (0, 423), (0, 423))] ∧
    (decompose 0 0 0 1024 0 1024 600 600).map (fun ts => ts.map fun t =>
        (t.key, t.read_request, t.read_shape)) =
      some [((0, 0, 0), ((0, 1023), (0, 1023)), (600, 600)),
            ((1, 0, 0), ((0, 1023), (0, 1023)), (600, 424)),
            ((0, 1, 0), ((0, 1023), (0, 1023)), (424, 600)),
            ((1, 1, 0), ((0, 1023), (0, 1023)), (424, 424))] ∧
    stateE2.map (fun s => (find s._unit_image_shapes 0, find s._plate_image_shapes 0)) =
      some (some (600, 600), some [1, 1, 1, 1200, 1200]) ∧
    stateE2.map (fun s => (_write_zarr_chunk envE2 s 0 0 0 0).isSome) = some false ∧
    stateE2.map (fun s => (write_zarr_chunk envE2 s 0 0 0 0).isSome) = some false := by
  refine ⟨by decide, by decide, by decide, by decide, by decide⟩

/-- Claim C3 (request validation) on scenario E5, a 1x1 grid with `H = W = 1024`:
the guards let through the request `(0, 0, 1, 1)`, for which `1 * 1024 < 1 * 1024` is
false, and requests with a negative channel or negative chunk indices; the request
`(0, 0, 1, 1)` is then recorded in the materialization cache without a source read. -/
theorem precheck_accepts_out_of_range :
    stateE5.map (fun s => (find s._unit_image_shapes 0, find s._plate_image_shapes 0,
        s._num_channels)) = some (some (1024, 1024), some [1, 1, 1, 1024, 1024], 1) ∧
    stateE5.map (fun s => (precheck s 0 0 1 1, precheck s 0 (-1) 0 0, precheck s 0 0 (-1) (-1)))
      = some (none, none, none) ∧
    ¬ (1 * CHUNK_SIZE < 1 * 1024) ∧
    (stateE5.bind fun s => (write_zarr_chunk envE5 s 0 0 1 1).map fun r =>
        (r.1._chunk_cache, r.2.any Event.isRead)) = some ([(0, 0, 1, 1)], false) := by
  refine ⟨by decide, by decide, by decide, by decide⟩

/-- Claim C6 (the composition map is read-only) on scenario E3,
`write_zarr_chunk(0, 0, 1, 1)`: the call returns and the composition map has one more
key than `m`, the key `(1, 1, 0)` of the chunk indices, with an empty path. -/
theorem composition_map_grows_on_E3 :
    stateE3.map (fun s => s._composition_map) = some mapE3 ∧
    (stateE3.bind fun s => (write_zarr_chunk envE3 s 0 0 1 1).map fun r =>
        r.1._composition_map) = some (mapE3 ++ [((1, 1, 0), "")]) ∧
    (stateE3.bind fun s => (write_zarr_chunk envE3 s 0 0 1 1).map fun r =>
        (find r.1._composition_map (1, 1, 0), find mapE3 (1, 1, 0))) = some (some "", none) := by
  refine ⟨by decide, by decide, by decide⟩

/-- Claim C7 (materialization-set invariant) on scenario E1,
`write_zarr_chunk(0, 0, 0, 0)`: with sources whose element type is none of the ten
cases of the dispatch the key is recorded though nothing was written, and with a
backend whose write reports an error the key is recorded though no write succeeded. -/
theorem cache_records_unwritten_chunks :
    (stateNoCase.bind fun s => (write_zarr_chunk envNoCase s 0 0 0 0).map fun r =>
        (r.1._chunk_cache, r.2.any Event.isWrite)) = some ([(0, 0, 0, 0)], false) ∧
    (stateWriteError.bind fun s => (write_zarr_chunk envWriteError s 0 0 0 0).map fun r =>
        (r.1._chunk_cache, r.2.any Event.isGoodWrite)) = some ([(0, 0, 0, 0)], false) := by
  refine ⟨by decide, by decide⟩

/-! ## Termination and size of the decomposition walk -/

/-- The inner loop schedules at most `n` tasks when `n` tiles, counted from the tile of
the current position, reach the end of the region. -/
theorem col_loop_length (level channel y_start y_end x_start x_end W : Int)
    (row ly ty tyd tye : Int) (hW : 0 < W) :
    ∀ (fuel : Nat) (pos : Int) (ts : List Task), 0 ≤ pos →
      col_loop level channel y_start y_end x_start x_end W row ly ty tyd tye fuel pos = some ts →
      ∀ n : Int, 0 ≤ n → x_end - pos / W * W ≤ n * W → (ts.length : Int) ≤ n := by
  intro fuel
  induction fuel with
  | zero =>
    intro pos ts _ h n hn _
    simp only [col_loop] at h
    split_ifs at h
    simp only [Option.some.injEq] at h
    rw [← h]; simpa using hn
  | succ fuel ih =>
    intro pos ts hpos h n hn hbound
    simp only [col_loop] at h
    split_ifs at h with hlt hz
    · obtain ⟨hc0, hc1, hc2⟩ := tile_index_facts pos W hW hpos
      rw [Int.tdiv_eq_ediv hpos (le_of_lt hW)] at h hc0 hc1 hc2
      generalize hcol : pos / W = col at h hbound hc0 hc1 hc2
      have hcw : (col + 1) * W = col * W + W := by ring
      have hdim : 0 < min ((col + 1) * W - pos) (x_end - pos) := by
        rw [lt_min_iff]; constructor <;> omega
      generalize hd : min ((col + 1) * W - pos) (x_end - pos) = d at h hdim
      have hstep : pos + (pos - col * W + d - (pos - col * W)) = pos + d := by ring
      rw [hstep] at h
      split at h
      · exact absurd h (by simp)
      · rename_i rest hrest
        simp only [Option.some.injEq] at h
        rw [← h, List.length_cons]
        have hn1 : 1 ≤ n := by
          by_contra hcon
          have : n = 0 := by omega
          rw [this] at hbound
          omega
        rcases min_choice ((col + 1) * W - pos) (x_end - pos) with hm | hm
        · have hd' : d = (col + 1) * W - pos := by rw [← hd, hm]
          have hpos' : pos + d = (col + 1) * W := by omega
          rw [hpos'] at hrest
          have hdiv : (col + 1) * W / W = col + 1 := Int.mul_ediv_cancel _ (ne_of_gt hW)
          have hmul : (n - 1) * W = n * W - W := by ring
          have := ih ((col + 1) * W) rest (by omega) hrest (n - 1) (by omega)
            (by rw [hdiv, hmul]; omega)
          push_cast
          omega
        · have hd' : d = x_end - pos := by rw [← hd, hm]
          have hpos' : pos + d = x_end := by omega
          rw [hpos'] at hrest
          have hnil : rest = [] := by
            cases fuel with
            | zero =>
              simp only [col_loop, lt_self_iff_false, if_false, Option.some.injEq] at hrest
              exact hrest.symm
            | succ k =>
              simp only [col_loop, lt_self_iff_false, if_false, Option.some.injEq] at hrest
              exact hrest.symm
          rw [hnil]
          simpa using hn1
    · simp only [Option.some.injEq] at h
      rw [← h]; simpa using hn

/-- The walk schedules at most `n * nC` tasks when `n` rows of tiles, counted from the
row of the current position, reach the end of the region and every row of tiles
gives at most `nC` tasks. -/
theorem row_loop_length (level channel y_start y_end x_start x_end H W : Int)
    (hH : 0 < H) (hW : 0 < W) (hx : 0 ≤ x_start) (nC : Int) (hnC : 0 ≤ nC)
    (hcols : x_end - x_start / W * W ≤ nC * W) :
    ∀ (fuel : Nat) (pos : Int) (ts : List Task), 0 ≤ pos →
      row_loop level channel y_start y_end x_start x_end H W fuel pos = some ts →
      ∀ n : Int, 0 ≤ n → y_end - pos / H * H ≤ n * H → (ts.length : Int) ≤ n * nC := by
  intro fuel
  induction fuel with
  | zero =>
    intro pos ts _ h n hn _
    simp only [row_loop] at h
    split_ifs at h
    simp only [Option.some.injEq] at h
    rw [← h]; simpa using mul_nonneg hn hnC
  | succ fuel ih =>
    intro pos ts hpos h n hn hbound
    simp only [row_loop] at h
    split_ifs at h with hlt hz
    · obtain ⟨hr0, hr1, hr2⟩ := tile_index_facts pos H hH hpos
      rw [Int.tdiv_eq_ediv hpos (le_of_lt hH)] at h hr0 hr1 hr2
      generalize hrow : pos / H = r at h hbound hr0 hr1 hr2
      have hrh : (r + 1) * H = r * H + H := by ring
      have hdim : 0 < min ((r + 1) * H - pos) (y_end - pos) := by
        rw [lt_min_iff]; constructor <;> omega
      generalize hd : min ((r + 1) * H - pos) (y_end - pos) = d at h hdim
      have hstep : pos + (pos - r * H + d - (pos - r * H)) = pos + d := by ring
      rw [hstep] at h
      split at h
      · exact absurd h (by simp)
      · rename_i cts hcts
        split at h
        · exact absurd h (by simp)
        · rename_i rest hrest
          simp only [Option.some.injEq] at h
          rw [← h, List.length_append]
          have hclen := col_loop_length level channel y_start y_end x_start x_end W _ _ _ _ _ hW
            _ _ cts hx hcts nC hnC hcols
          have hn1 : 1 ≤ n := by
            by_contra hcon
            have : n = 0 := by omega
            rw [this] at hbound
            omega
          have hsplit : n * nC = nC + (n - 1) * nC := by ring
          rcases min_choice ((r + 1) * H - pos) (y_end - pos) with hm | hm
          · have hd' : d = (r + 1) * H - pos := by rw [← hd, hm]
            have hpos' : pos + d = (r + 1) * H := by omega
            rw [hpos'] at hrest
            have hdiv : (r + 1) * H / H = r + 1 := Int.mul_ediv_cancel _ (ne_of_gt hH)
            have hmul : (n - 1) * H = n * H - H := by ring
            have := ih ((r + 1) * H) rest (by omega) hrest (n - 1) (by omega)
              (by rw [hdiv, hmul]; omega)
            push_cast
            omega
          · have hd' : d = y_end - pos := by rw [← hd, hm]
            have hpos' : pos + d = y_end := by omega
            rw [hpos'] at hrest
            have hnil : rest = [] := by
              cases fuel with
              | zero =>
                simp only [row_loop, lt_self_iff_false, if_false, Option.some.injEq] at hrest
                exact hrest.symm
              | succ k =>
                simp only [row_loop, lt_self_iff_false, if_false, Option.some.injEq] at hrest
                exact hrest.symm
            rw [hnil]
            have : 0 ≤ (n - 1) * nC := mul_nonneg (by omega) hnC
            push_cast
            simp only [List.length_nil, Nat.cast_zero, add_zero]
            omega
    · simp only [Option.some.injEq] at h
      rw [← h]; simpa using mul_nonneg hn hnC

/-- One more iteration allowed does not change the result of the outer loop. -/
theorem row_loop_fuel_succ (level channel y_start y_end x_start x_end H W : Int) :
    ∀ (fuel : Nat) (pos : Int) (ts : List Task),
      row_loop level channel y_start y_end x_start x_end H W fuel pos = some ts →
      row_loop level channel y_start y_end x_start x_end H W (fuel + 1) pos = some ts := by
  intro fuel
  induction fuel with
  | zero =>
    intro pos ts h
    simp only [row_loop] at h
    split_ifs at h with hlt
    simp only [row_loop, if_neg hlt]
    exact h
  | succ fuel ih =>
    intro pos ts h
    rw [row_loop] at h
    rw [row_loop]
    split_ifs at h with hlt hz
    · simp only [if_pos hlt, if_neg hz]
      simp only at h
      split at h
      · exact absurd h (by simp)
      · rename_i cts hcts
        split at h
        · exact absurd h (by simp)
        · rename_i rest hrest
          simp only [hcts, ih _ _ hrest]
          exact h
    · simp only [if_neg hlt]
      exact h

theorem row_loop_fuel_mono (level channel y_start y_end x_start x_end H W : Int)
    (fuel : Nat) (pos : Int) (ts : List Task)
    (h : row_loop level channel y_start y_end x_start x_end H W fuel pos = some ts) :
    ∀ more : Nat, fuel ≤ more →
      row_loop level channel y_start y_end x_start x_end H W more pos = some ts := by
  intro more hle
  induction more with
  | zero =>
    have : fuel = 0 := by omega
    rw [← this]; exact h
  | succ k ih =>
    rcases Nat.eq_or_lt_of_le hle with heq | hlt
    · rw [← heq]; exact h
    · exact row_loop_fuel_succ _ _ _ _ _ _ _ _ k pos ts (ih (by omega))

/-- A region of at most `S` cells that starts at `lo ≥ 0` ends inside the first `n`
tiles counted from the tile of `lo`, as soon as `n` tiles are at least `S + U` long. -/
theorem tiles_reach_end (lo hi U S n : Int) (hU : 0 < U) (hS : 0 ≤ S) (hlen : hi - lo ≤ S)
    (hn : S + U ≤ n * U) : 0 ≤ n ∧ hi - lo / U * U ≤ n * U := by
  have h0 : 0 ≤ n := by
    by_contra hcon
    have : n * U ≤ 0 := mul_nonpos_of_nonpos_of_nonneg (by omega) (le_of_lt hU)
    omega
  have h1 := Int.lt_ediv_add_one_mul_self lo hU
  have h2 : (lo / U + 1) * U = lo / U * U + U := by ring
  exact ⟨h0, by omega⟩

/-- The walk over a region of at most `S` by `S` cells schedules at most `nR * nC`
tasks as soon as `nR` tiles are at least `S + H` high and `nC` tiles at least `S + W`
wide. -/
theorem decompose_length_le (level channel H W y0 y1 x0 x1 S : Int) (tasks : List Task)
    (hH : 0 < H) (hW : 0 < W) (hy0 : 0 ≤ y0) (hx0 : 0 ≤ x0) (hS : 0 ≤ S)
    (hyS : y1 - y0 ≤ S) (hxS : x1 - x0 ≤ S)
    (h : decompose level channel y0 y1 x0 x1 H W = some tasks)
    (nR nC : Int) (hR : S + H ≤ nR * H) (hC : S + W ≤ nC * W) :
    (tasks.length : Int) ≤ nR * nC := by
  obtain ⟨hnR, hrows⟩ := tiles_reach_end y0 y1 H S nR hH hS hyS hR
  obtain ⟨hnC, hcols⟩ := tiles_reach_end x0 x1 W S nC hW hS hxS hC
  exact row_loop_length level channel y0 y1 x0 x1 H W hH hW hx0 nC hnC hcols
    (y1 - y0).toNat y0 tasks hy0 h nR hnR hrows

theorem le_ceil_div_mul (a b : Int) (hb : 0 < b) : a ≤ ⌈(a : ℚ) / (b : ℚ)⌉ * b := by
  have hbq : (0 : ℚ) < (b : ℚ) := by exact_mod_cast hb
  have h1 : (a : ℚ) / (b : ℚ) ≤ (⌈(a : ℚ) / (b : ℚ)⌉ : ℚ) := Int.le_ceil _
  have h2 : (a : ℚ) ≤ (⌈(a : ℚ) / (b : ℚ)⌉ : ℚ) * (b : ℚ) := (div_le_iff₀ hbq).1 h1
  exact_mod_cast h2

theorem le_ediv_round_up_mul (a b : Int) (hb : 0 < b) : a ≤ (a + (b - 1)) / b * b := by
  have h1 := Int.lt_ediv_add_one_mul_self (a + (b - 1)) hb
  have h2 : ((a + (b - 1)) / b + 1) * b = (a + (b - 1)) / b * b + b := by ring
  omega

/-- Claim C11 (termination and tile-count bound).  For tiles of `H > 0` by `W > 0` and
an output region with `0 ≤ y0 < y1`, `0 ≤ x0 < x1`, `y1 - y0 ≤ S` and `x1 - x0 ≤ S`
(`S = 1024`), both loops of the walk end: the walk returns its tasks within
`y1 - y0` iterations of the outer loop and `x1 - x0` iterations of each inner loop,
and allowing more iterations gives the same tasks; every task advances the position
by `tile_y_dim ≥ 1` and `tile_x_dim ≥ 1`; and the number of tasks is at most
`⌈(S + H) / H⌉ * ⌈(S + W) / W⌉`, the ceilings being those of the rational quotients
(they are also the rounded-up integer quotients
`(S + H + (H - 1)) / H` and `(S + W + (W - 1)) / W`). -/
theorem decompose_terminates_bounded (level channel H W y0 y1 x0 x1 : Int)
    (hH : 0 < H) (hW : 0 < W) (hy0 : 0 ≤ y0) (hy : y0 < y1) (hx0 : 0 ≤ x0) (hx : x0 < x1)
    (hyS : y1 - y0 ≤ CHUNK_SIZE) (hxS : x1 - x0 ≤ CHUNK_SIZE) :
    ∃ tasks, decompose level channel y0 y1 x0 x1 H W = some tasks ∧
      (∀ fuel : Nat, (y1 - y0).toNat ≤ fuel →
        row_loop level channel y0 y1 x0 x1 H W fuel y0 = some tasks) ∧
      (∀ (row local_y_start tile_y_start tile_y_dim tile_y_end : Int) (fuel : Nat),
        (x1 - x0).toNat ≤ fuel →
        ∃ row_tasks, col_loop level channel y0 y1 x0 x1 W
            row local_y_start tile_y_start tile_y_dim tile_y_end fuel x0 = some row_tasks ∧
          (row_tasks.length : Int) ≤ ⌈((CHUNK_SIZE + W : Int) : ℚ) / (W : ℚ)⌉) ∧
      (∀ t ∈ tasks, 1 ≤ t.tile_y_dim ∧ 1 ≤ t.tile_x_dim ∧
        t.tile_y_end - t.tile_y_start = t.tile_y_dim ∧
        t.tile_x_end - t.tile_x_start = t.tile_x_dim) ∧
      (tasks.length : Int) ≤
        ⌈((CHUNK_SIZE + H : Int) : ℚ) / (H : ℚ)⌉ * ⌈((CHUNK_SIZE + W : Int) : ℚ) / (W : ℚ)⌉ ∧
      (tasks.length : Int) ≤
        (CHUNK_SIZE + H + (H - 1)) / H * ((CHUNK_SIZE + W + (W - 1)) / W) := by
  obtain ⟨ts, h1, h2, _⟩ := decompose_spec level channel y0 y1 x0 x1 H W hH hW hy0 hx0
  have hS : (0 : Int) ≤ CHUNK_SIZE := by decide
  refine ⟨ts, h1, ?_, ?_, ?_, ?_, ?_⟩
  · intro fuel hfuel
    exact row_loop_fuel_mono level channel y0 y1 x0 x1 H W (y1 - y0).toNat y0 ts h1 fuel hfuel
  · intro row ly ty tyd tye fuel hfuel
    obtain ⟨cts, hc, _, _⟩ := col_loop_spec level channel y0 y1 x0 x1 W row ly ty tyd tye hW hx0
      fuel x0 (le_refl _) hfuel
    obtain ⟨hnC, hcols⟩ := tiles_reach_end x0 x1 W CHUNK_SIZE _ hW hS hxS
      (le_ceil_div_mul (CHUNK_SIZE + W) W hW)
    exact ⟨cts, hc, col_loop_length level channel y0 y1 x0 x1 W row ly ty tyd tye hW fuel x0 cts
      hx0 hc _ hnC hcols⟩
  · intro t ht
    have ok := h2 t ht
    have := ok.ty_lt; have := ok.ty_end; have := ok.tx_lt; have := ok.tx_end
    refine ⟨by omega, by omega, by omega, by omega⟩
  · exact decompose_length_le level channel H W y0 y1 x0 x1 CHUNK_SIZE ts hH hW hy0 hx0 hS
      hyS hxS h1 _ _ (le_ceil_div_mul (CHUNK_SIZE + H) H hH) (le_ceil_div_mul (CHUNK_SIZE + W) W hW)
  · exact decompose_length_le level channel H W y0 y1 x0 x1 CHUNK_SIZE ts hH hW hy0 hx0 hS
      hyS hxS h1 _ _ (le_ediv_round_up_mul (CHUNK_SIZE + H) H hH)
      (le_ediv_round_up_mul (CHUNK_SIZE + W) W hW)

/-- Scenario E2 for claim C11: tiles of 600 by 600 and the chunk
`[0, 1024) x [0, 1024)` give four tasks, and the bound is `3 * 3`. -/
theorem decompose_terminates_bounded_witness :
    (decompose 0 0 0 1024 0 1024 600 600).map List.length = some 4 ∧
    (CHUNK_SIZE + 600 + (600 - 1)) / 600 * ((CHUNK_SIZE + 600 + (600 - 1)) / 600) = 9 ∧
    ∃ tasks, decompose 0 0 0 1024 0 1024 600 600 = some tasks ∧
      (∀ fuel : Nat, (1024 - 0 : Int).toNat ≤ fuel →
        row_loop 0 0 0 1024 0 1024 600 600 fuel 0 = some tasks) ∧
      (∀ (row local_y_start tile_y_start tile_y_dim tile_y_end : Int) (fuel : Nat),
        (1024 - 0 : Int).toNat ≤ fuel →
        ∃ row_tasks, col_loop 0 0 0 1024 0 1024 600
            row local_y_start tile_y_start tile_y_dim tile_y_end fuel 0 = some row_tasks ∧
          (row_tasks.length : Int) ≤ ⌈((CHUNK_SIZE + 600 : Int) : ℚ) / ((600 : Int) : ℚ)⌉) ∧
      (∀ t ∈ tasks, 1 ≤ t.tile_y_dim ∧ 1 ≤ t.tile_x_dim ∧
        t.tile_y_end - t.tile_y_start = t.tile_y_dim ∧
        t.tile_x_end - t.tile_x_start = t.tile_x_dim) ∧
      (tasks.length : Int) ≤
        ⌈((CHUNK_SIZE + 600 : Int) : ℚ) / ((600 : Int) : ℚ)⌉ *
          ⌈((CHUNK_SIZE + 600 : Int) : ℚ) / ((600 : Int) : ℚ)⌉ ∧
      (tasks.length : Int) ≤
        (CHUNK_SIZE + 600 + (600 - 1)) / 600 * ((CHUNK_SIZE + 600 + (600 - 1)) / 600) :=
  ⟨by decide, by decide,
    decompose_terminates_bounded 0 0 600 600 0 1024 0 1024 (by decide) (by decide) (by decide)
      (by decide) (by decide) (by decide) (by decide) (by decide)⟩

end argolid
